import Mathlib

/-!
# Component status instance identity

A shallow embedding of `component/componentstatus/instance.go`: the comparable
`InstanceID` key (component ID, kind and the pipeline set encoded as one
delimiter-joined string), its constructors, its extension operations and its
pipeline iterators, together with the properties proved about them.

Go strings are modelled as lists of bytes.  The declarations of `component.ID`
and `pipeline.ID` are not part of the sources at hand, so the operations of
these two types that `instance.go` calls are collected in the record `Deps`
and every definition takes them as a parameter.

The second part embeds `service/command.go`: the command built by `NewCommand`
and its run function, over the record `Externals` of the declarations it uses
from other files and packages, with the external calls recorded in order.
-/

/-- A Go string: an immutable sequence of bytes (each byte a number below 256). -/
abbrev GoString := List Nat

/-- Go's `<` on strings: byte-wise lexicographic comparison, a proper initial
segment being smaller. -/
def strLess : GoString → GoString → Bool
  | [], [] => false
  | [], _ :: _ => true
  | _ :: _, [] => false
  | a :: as, b :: bs => if a < b then true else if b < a then false else strLess as bs

/-- Go's `strings.Split(s, sep)` for a separator `sep` of one byte: the
substrings of `s` between the occurrences of `sep`; one more substring than
there are separators, so `Split "" sep` is `[""]`. -/
def strings.Split (s : GoString) (sep : Nat) : List GoString :=
  match s with
  | [] => [[]]
  | b :: rest =>
    if b = sep then [] :: strings.Split rest sep
    else
      match strings.Split rest sep with
      | [] => [[b]]
      | seg :: segs => (b :: seg) :: segs

/-- Go's `strings.Join(elems, sep)` for a separator `sep` of one byte. -/
def strings.Join (elems : List GoString) (sep : Nat) : GoString :=
  match elems with
  | [] => []
  | [a] => a
  | a :: b :: rest => a ++ sep :: strings.Join (b :: rest) sep

/-- Go's `sort.Strings`: sorts in increasing order, that is, into the
arrangement in which no element is `<` its predecessor. -/
def sort.Strings (x : List GoString) : List GoString :=
  x.insertionSort (fun a b => strLess b a = false)

/-- Go's `slices.Compact`: replaces each run of consecutive equal elements by
a single copy. -/
def slices.Compact {α : Type} [DecidableEq α] : List α → List α
  | [] => []
  | [a] => [a]
  | a :: b :: rest =>
    if a = b then slices.Compact (b :: rest) else a :: slices.Compact (b :: rest)

/-- The order `sort.Strings` sorts by: `a` may precede `b` when `b` is not `<` `a`. -/
abbrev sortLe : GoString → GoString → Prop := fun a b => strLess b a = false

/-- The canonical list of a list of strings: sorted, then compacted. -/
def canon (x : List GoString) : List GoString := slices.Compact (sort.Strings x)

namespace componentstatus

/-- The operations of `component.ID` (type `CID`) and `pipeline.ID` (type
`PID`) used by `instance.go`.  Their declarations live in other packages, so
they are parameters of the development.  A result `none` stands for a returned
error (`UnmarshalText`) or for a panic (`MustNewID`, `MustNewIDWithName`). -/
structure Deps (CID PID : Type) where
  /-- Stands for `component.ID.Type().String()`. -/
  typeString : CID → GoString
  /-- Stands for `component.ID.Name()`. -/
  name : CID → GoString
  /-- Stands for `component.ID.UnmarshalText` applied to a zero `component.ID`. -/
  componentUnmarshalText : GoString → Option CID
  /-- Stands for `pipeline.ID.String()`. -/
  pipelineString : PID → GoString
  /-- Stands for `pipeline.ID.UnmarshalText` applied to a zero `pipeline.ID`. -/
  pipelineUnmarshalText : GoString → Option PID
  /-- Stands for `pipeline.MustNewID`. -/
  MustNewID : GoString → Option PID
  /-- Stands for `pipeline.MustNewIDWithName`. -/
  MustNewIDWithName : GoString → GoString → Option PID

/-- pipelineDelim is the delimiter for the internal representation of pipeline
component IDs. -/
def pipelineDelim : Nat := 0x20

/-- InstanceID uniquely identifies a component instance; the pipeline IDs are
encoded as a string so that InstanceID is comparable. -/
structure InstanceID (CID K : Type) where
  componentID : CID
  kind : K
  pipelineIDs : GoString
deriving DecidableEq

variable {CID PID K : Type}

/-- The loop of `addPipelines` appending the string form of each pipeline ID. -/
def appendStrings (E : Deps CID PID) (strIDs : List GoString) : List PID → List GoString
  | [] => strIDs
  | pID :: rest => appendStrings E (strIDs ++ [E.pipelineString pID]) rest

/-- `addPipelines`: the receiver after the call.  The stored encoding is split
at the delimiter, the string forms of the new pipelines are appended, the
strings are sorted and compacted, and joined again with a final delimiter. -/
def InstanceID.addPipelines (E : Deps CID PID) (id : InstanceID CID K)
    (pipelineIDs : List PID) : InstanceID CID K :=
  let strIDs := strings.Split id.pipelineIDs pipelineDelim
  let strIDs := appendStrings E strIDs pipelineIDs
  let strIDs := sort.Strings strIDs
  let strIDs := slices.Compact strIDs
  { id with pipelineIDs := strings.Join strIDs pipelineDelim ++ [pipelineDelim] }

/-- `convertToPipelineIDs`: each component ID becomes the pipeline ID of the
same type string and name; `none` when one of the `Must` constructors panics. -/
def convertToPipelineIDs (E : Deps CID PID) : List CID → Option (List PID)
  | [] => some []
  | id :: rest =>
    match (if E.name id ≠ [] then E.MustNewIDWithName (E.typeString id) (E.name id)
           else E.MustNewID (E.typeString id)) with
    | none => none
    | some p =>
      match convertToPipelineIDs E rest with
      | none => none
      | some ps => some (p :: ps)

/-- `NewInstanceIDWithPipelineIDs` returns an InstanceID that uniquely
identifies a component. -/
def NewInstanceIDWithPipelineIDs (E : Deps CID PID) (componentID : CID) (kind : K)
    (pipelineIDs : List PID) : InstanceID CID K :=
  let instanceID : InstanceID CID K :=
    { componentID := componentID, kind := kind, pipelineIDs := [] }
  instanceID.addPipelines E pipelineIDs

/-- `NewInstanceID` (deprecated): as `NewInstanceIDWithPipelineIDs`, on
component IDs; `none` when the conversion panics. -/
def NewInstanceID (E : Deps CID PID) (componentID : CID) (kind : K)
    (pipelineIDs : List CID) : Option (InstanceID CID K) :=
  let instanceID : InstanceID CID K :=
    { componentID := componentID, kind := kind, pipelineIDs := [] }
  match convertToPipelineIDs E pipelineIDs with
  | none => none
  | some ps => some (instanceID.addPipelines E ps)

/-- `ComponentID` returns the component ID associated with this instance. -/
def InstanceID.ComponentID (id : InstanceID CID K) : CID := id.componentID

/-- `Kind` returns the component kind associated with this instance. -/
def InstanceID.Kind (id : InstanceID CID K) : K := id.kind

/-- The loop shared by the two iterators, over the bytes still to be read, with
the bytes `bs` collected since the last delimiter and the visitor's state `st`.
A visitor is a function from its state and the ID it is called on to its
answer and its next state. -/
def visitLoop {ID σ : Type} (unmarshal : GoString → Option ID) (f : σ → ID → Bool × σ) :
    List Nat → GoString → σ → σ
  | [], _, st => st
  | b :: rest, bs, st =>
    if b ≠ pipelineDelim then visitLoop unmarshal f rest (bs ++ [b]) st
    else
      match unmarshal bs with
      | none => visitLoop unmarshal f rest [] st
      | some pipelineID =>
        if (f st pipelineID).1 = false then (f st pipelineID).2
        else visitLoop unmarshal f rest [] (f st pipelineID).2

/-- `AllPipelineIDs` (deprecated) calls f for each pipeline this instance is
associated with; if f returns false it stops.  The result is the visitor's
final state. -/
def InstanceID.AllPipelineIDs {σ : Type} (E : Deps CID PID) (id : InstanceID CID K)
    (f : σ → CID → Bool × σ) (st : σ) : σ :=
  visitLoop E.componentUnmarshalText f id.pipelineIDs [] st

/-- `AllPipelineIDsWithPipelineIDs` calls f for each pipeline this instance is
associated with; if f returns false it stops.  The result is the visitor's
final state. -/
def InstanceID.AllPipelineIDsWithPipelineIDs {σ : Type} (E : Deps CID PID)
    (id : InstanceID CID K) (f : σ → PID → Bool × σ) (st : σ) : σ :=
  visitLoop E.pipelineUnmarshalText f id.pipelineIDs [] st

/-- `WithPipelineIDs` returns a new InstanceID updated to include the given
pipeline IDs. -/
def InstanceID.WithPipelineIDs (E : Deps CID PID) (id : InstanceID CID K)
    (pipelineIDs : List PID) : InstanceID CID K :=
  let instanceID : InstanceID CID K :=
    { componentID := id.componentID, kind := id.kind, pipelineIDs := id.pipelineIDs }
  instanceID.addPipelines E pipelineIDs

/-- `WithPipelines` (deprecated): as `WithPipelineIDs`, on component IDs;
`none` when the conversion panics. -/
def InstanceID.WithPipelines (E : Deps CID PID) (id : InstanceID CID K)
    (pipelineIDs : List CID) : Option (InstanceID CID K) :=
  let instanceID : InstanceID CID K :=
    { componentID := id.componentID, kind := id.kind, pipelineIDs := id.pipelineIDs }
  match convertToPipelineIDs E pipelineIDs with
  | none => none
  | some ps => some (instanceID.addPipelines E ps)

/-- The visitor that records the IDs it is called on and gives the answers of
the pure predicate `g`. -/
def recording {ID : Type} (g : ID → Bool) : List ID → ID → Bool × List ID :=
  fun calls p => (g p, calls ++ [p])

/-- The delimiter-terminated segments of an encoding, as the iterators read
them: `bs` holds the bytes collected since the last delimiter; bytes after the
last delimiter belong to no segment. -/
def segmentsFrom : GoString → GoString → List GoString
  | [], _ => []
  | b :: rest, bs =>
    if b ≠ pipelineDelim then segmentsFrom rest (bs ++ [b]) else bs :: segmentsFrom rest []

/-- The delimiter-terminated segments of an encoding. -/
def segments (s : GoString) : List GoString := segmentsFrom s []

/-- Calling a visitor on a sequence of IDs in order, stopping after the first
call that answers false. -/
def visitSeq {ID σ : Type} (f : σ → ID → Bool × σ) : List ID → σ → σ
  | [], st => st
  | p :: rest, st => if (f st p).1 = false then (f st p).2 else visitSeq f rest (f st p).2

/-- The pipeline sequence stored in an identity: the delimiter-terminated
segments of its encoding that `pipeline.ID.UnmarshalText` accepts, in order. -/
def InstanceID.pipelineSeq (E : Deps CID PID) (id : InstanceID CID K) : List PID :=
  (segments id.pipelineIDs).filterMap E.pipelineUnmarshalText

/-- The component-ID reading of the stored sequence, used by the deprecated
iterator. -/
def InstanceID.componentSeq (E : Deps CID PID) (id : InstanceID CID K) : List CID :=
  (segments id.pipelineIDs).filterMap E.componentUnmarshalText

/-- A heap of InstanceID objects; a pointer `*InstanceID` is an index into it. -/
abbrev Store (CID K : Type) := List (InstanceID CID K)

/-- The allocation `&InstanceID{...}`: the heap with the new object, and the
pointer to it. -/
def Store.new (s : Store CID K) (v : InstanceID CID K) : Store CID K × Nat :=
  (s ++ [v], s.length)

namespace ptr

/-- `addPipelines` on a pointer receiver: writes the receiver's `pipelineIDs`
field in place.  `none` stands for a panic (an invalid receiver pointer). -/
def addPipelines (E : Deps CID PID) (s : Store CID K) (id : Nat) (pipelineIDs : List PID) :
    Option (Store CID K) :=
  match s[id]? with
  | none => none
  | some v => some (s.set id (v.addPipelines E pipelineIDs))

/-- `WithPipelineIDs` on a pointer receiver: the heap after the call and the
returned pointer. -/
def WithPipelineIDs (E : Deps CID PID) (s : Store CID K) (id : Nat) (pipelineIDs : List PID) :
    Option (Store CID K × Nat) :=
  match s[id]? with
  | none => none
  | some v =>
    match s.new { componentID := v.componentID, kind := v.kind,
                  pipelineIDs := v.pipelineIDs } with
    | (s1, instanceID) =>
      match addPipelines E s1 instanceID pipelineIDs with
      | none => none
      | some s2 => some (s2, instanceID)

/-- `WithPipelines` (deprecated) on a pointer receiver: the heap after the call
and the returned pointer; `none` also when the conversion panics. -/
def WithPipelines (E : Deps CID PID) (s : Store CID K) (id : Nat) (pipelineIDs : List CID) :
    Option (Store CID K × Nat) :=
  match s[id]? with
  | none => none
  | some v =>
    match s.new { componentID := v.componentID, kind := v.kind,
                  pipelineIDs := v.pipelineIDs } with
    | (s1, instanceID) =>
      match convertToPipelineIDs E pipelineIDs with
      | none => none
      | some ps =>
        match addPipelines E s1 instanceID ps with
        | none => none
        | some s2 => some (s2, instanceID)

/-- `AllPipelineIDsWithPipelineIDs` on a pointer receiver: the heap after the
call and the visitor's final state. -/
def AllPipelineIDsWithPipelineIDs {σ : Type} (E : Deps CID PID) (s : Store CID K) (id : Nat)
    (f : σ → PID → Bool × σ) (st : σ) : Option (Store CID K × σ) :=
  match s[id]? with
  | none => none
  | some v => some (s, v.AllPipelineIDsWithPipelineIDs E f st)

/-- `AllPipelineIDs` (deprecated) on a pointer receiver: the heap after the
call and the visitor's final state. -/
def AllPipelineIDs {σ : Type} (E : Deps CID PID) (s : Store CID K) (id : Nat)
    (f : σ → CID → Bool × σ) (st : σ) : Option (Store CID K × σ) :=
  match s[id]? with
  | none => none
  | some v => some (s, v.AllPipelineIDs E f st)

/-- `ComponentID` on a pointer receiver: the heap after the call and the
result. -/
def ComponentID (s : Store CID K) (id : Nat) : Option (Store CID K × CID) :=
  match s[id]? with
  | none => none
  | some v => some (s, v.ComponentID)

/-- `Kind` on a pointer receiver: the heap after the call and the result. -/
def Kind (s : Store CID K) (id : Nat) : Option (Store CID K × K) :=
  match s[id]? with
  | none => none
  | some v => some (s, v.Kind)

end ptr

namespace model

/-- Modelled from the spec: the component kinds (receiver, processor, exporter,
connector, extension); the declaration of `component.Kind` is not part of the
sources. -/
inductive Kind where
  | receiver | processor | exporter | connector | extension
deriving DecidableEq

/-- Modelled from the spec: `component.ID`, the component reference made of a
component type and an optional name; its declaration (package `component`) is
not part of the sources.  The zero value has an empty type and an empty
name. -/
structure ComponentID where
  typeVal : GoString
  nameVal : GoString
deriving DecidableEq

/-- Modelled from the spec: `pipeline.ID`, the identifier of a pipeline made
of its signal type and an optional name; its declaration (package `pipeline`)
is not part of the sources.  The zero value has an empty signal and an empty
name. -/
structure PipelineID where
  signal : GoString
  name : GoString
deriving DecidableEq

/-- The bytes of "traces". -/
def traces : GoString := [116, 114, 97, 99, 101, 115]
/-- The bytes of "metrics". -/
def metrics : GoString := [109, 101, 116, 114, 105, 99, 115]
/-- The bytes of "logs". -/
def logs : GoString := [108, 111, 103, 115]

/-- Modelled from the spec: a signal type of pipelines, such as traces, metrics
and logs, is a word of 1 to 62 lower-case letters; this is the check that the
missing constructors and parser of `pipeline.ID` make on a type. -/
def validSignal (t : GoString) : Bool :=
  t ≠ [] && t.length ≤ 62 && t.all (fun b => 97 ≤ b && b ≤ 122)

/-- Modelled from the spec: the check that the missing constructor
`pipeline.MustNewIDWithName` and the parser make on a name: 1 to 1024 bytes,
none of them a space, a control character or a symbol (of the ASCII bytes:
those up to 0x20, 0x7f, and the symbols "$+<=>^|~" and the grave accent). -/
def validName (n : GoString) : Bool :=
  n ≠ [] && n.length ≤ 1024 &&
    n.all (fun b => 32 < b && b ≠ 127 && !([36, 43, 60, 61, 62, 94, 96, 124, 126].contains b))

/-- The separator between type and name in the string form of an ID: "/". -/
def typeAndNameSeparator : Nat := 47

/-- Modelled from the spec: the string form of an ID (the missing `String`
methods), its type, followed by the separator and the name when there is a
name, as in "traces" and "traces/a". -/
def idString (typ name : GoString) : GoString :=
  if name = [] then typ else typ ++ typeAndNameSeparator :: name

/-- Cuts a string at the first separator: the part before it, the part after
it, and whether a separator was found. -/
def cut : GoString → GoString × GoString × Bool
  | [] => ([], [], false)
  | b :: rest =>
    if b = typeAndNameSeparator then ([], rest, true)
    else ((b :: (cut rest).1), (cut rest).2.1, (cut rest).2.2)

/-- Modelled from the spec: parsing the string form of an ID back into type
and name (the missing `UnmarshalText` methods); an empty type, or a separator
followed by an empty name, is an error. -/
def parse (text : GoString) : Option (GoString × GoString) :=
  if (cut text).1 = [] then none
  else if (cut text).2.2 = true ∧ (cut text).2.1 = [] then none
  else some ((cut text).1, (cut text).2.1)

/-- Modelled from the spec: the operations of `component.ID` and `pipeline.ID`
that `instance.go` calls and that are declared outside the sources, on the two
record types above.  A pipeline ID is only parsed, or built by a `Must`
constructor, when its type is a signal type and its name, if one is given, is
a valid name; otherwise parsing is an error and the `Must` constructor
panics. -/
def deps : Deps ComponentID PipelineID where
  typeString := fun id => id.typeVal
  name := fun id => id.nameVal
  componentUnmarshalText := fun text =>
    match parse text with
    | none => none
    | some (t, n) => some { typeVal := t, nameVal := n }
  pipelineString := fun id => idString id.signal id.name
  pipelineUnmarshalText := fun text =>
    match parse text with
    | none => none
    | some (t, n) =>
      if validSignal t && (n = [] || validName n) then some { signal := t, name := n }
      else none
  MustNewID := fun t => if validSignal t then some { signal := t, name := [] } else none
  MustNewIDWithName := fun t n =>
    if validSignal t && validName n then some { signal := t, name := n } else none

/-- The pipeline ID "traces/a". -/
def tracesA : PipelineID := { signal := traces, name := [97] }
/-- The pipeline ID "traces/b". -/
def tracesB : PipelineID := { signal := traces, name := [98] }
/-- The pipeline ID "traces/c". -/
def tracesC : PipelineID := { signal := traces, name := [99] }
/-- The component ID "traces", used as the ID of a receiver in the examples. -/
def tracesComponent : ComponentID := { typeVal := traces, nameVal := [] }

/-- The pipeline ID "traces/b a", whose name holds the delimiter byte. -/
def tracesBspaceA : PipelineID := { signal := traces, name := [98, 32, 97] }
/-- The pipeline ID "traces/a b", whose name holds the delimiter byte. -/
def tracesAspaceB : PipelineID := { signal := traces, name := [97, 32, 98] }
/-- The zero value of `pipeline.ID`; its string form is empty. -/
def zeroPipeline : PipelineID := { signal := [], name := [] }
/-- The zero value of `component.ID`: the empty component reference. -/
def zeroComponent : ComponentID := { typeVal := [], nameVal := [] }
/-- The component ID "k8s", whose type is no signal type. -/
def k8sComponent : ComponentID := { typeVal := [107, 56, 115], nameVal := [] }
/-- The component ID "traces/a". -/
def tracesAComponent : ComponentID := { typeVal := traces, nameVal := [97] }
/-- The pipeline ID "traces", without a name. -/
def tracesPlain : PipelineID := { signal := traces, name := [] }
/-- The component ID "traces/a+b": its type is a signal type, its name holds
the symbol "+". -/
def tracesAplusBComponent : ComponentID := { typeVal := traces, nameVal := [97, 43, 98] }
/-- The pipeline ID "traces/a+b", of the same type and name. -/
def tracesAplusB : PipelineID := { signal := traces, name := [97, 43, 98] }

end model

/-- An identity extended by `WithPipelineIDs` once for each list of `exts`, in
order. -/
def extend (E : Deps CID PID) (id : InstanceID CID K) : List (List PID) → InstanceID CID K
  | [] => id
  | e :: rest => extend E (id.WithPipelineIDs E e) rest


/-- Each string of a list followed by the delimiter, all concatenated. -/
def encodeSegments : List GoString → GoString
  | [] => []
  | s :: rest => s ++ pipelineDelim :: encodeSegments rest


/-- What the missing `Must` constructors of `pipeline.ID` return, in terms of
the accessors `sig` (signal type string) and `nm` (name) of a pipeline ID: the
ID built has the type and the name it was built from. -/
def ConstructorsKeep (E : Deps CID PID) (sig nm : PID → GoString) : Prop :=
  (∀ t p, E.MustNewID t = some p → sig p = t ∧ nm p = []) ∧
  (∀ t n p, E.MustNewIDWithName t n = some p → sig p = t ∧ nm p = n)


/-- The `Must` constructor call that `convertToPipelineIDs` makes for one
component ID returns. -/
abbrev Converts (E : Deps CID PID) (id : CID) : Prop :=
  (if E.name id ≠ [] then E.MustNewIDWithName (E.typeString id) (E.name id)
   else E.MustNewID (E.typeString id)).isSome = true


end componentstatus

namespace service

/-- `CollectorSettings`, as far as `command.go` reads and writes it: the build
information, the config map provider (`none` for a nil provider) and the
remaining fields, which `command.go` does not mention.  The declaration of the
type is not part of the sources, so the types of its fields are parameters. -/
structure CollectorSettings (P B R : Type) where
  BuildInfo : B
  ConfigMapProvider : Option P
  rest : R

/-- What `command.go` uses and the sources do not hold: the types of
providers, build information, remaining settings, collectors, non-nil errors,
contexts, flag values and of the state of the process that the calls read and
change, and the functions called.  Functions with an effect take the state of
the process and return the new one. -/
structure Externals where
  Provider : Type
  BuildInfo : Type
  Rest : Type
  Collector : Type
  Error : Type
  Context : Type
  World : Type
  Gates : Type
  ConfigFlag : Type
  SetFlag : Type
  FlagSet : Type
  /-- Stands for the field `BuildInfo.Command`. -/
  buildCommand : BuildInfo → GoString
  /-- Stands for the field `BuildInfo.Version`. -/
  buildVersion : BuildInfo → GoString
  /-- Stands for `featuregate.GetFlags`. -/
  GetFlags : World → Gates
  /-- Stands for `featuregate.Apply`. -/
  Apply : Gates → World → World
  /-- Stands for `getConfigFlag`. -/
  getConfigFlag : World → ConfigFlag
  /-- Stands for `getSetFlag`. -/
  getSetFlag : World → SetFlag
  /-- Stands for `configmapprovider.NewDefault`. -/
  NewDefault : ConfigFlag → SetFlag → Provider
  /-- Stands for `New`: a collector, or an error. -/
  New : CollectorSettings Provider BuildInfo Rest → World → Except Error Collector × World
  /-- Stands for `(*Collector).Run`: the returned error, `none` for nil. -/
  Run : Collector → Context → World → Option Error × World
  /-- Stands for `flags`. -/
  flags : FlagSet

/-- The settings type over the types of `X`. -/
abbrev Settings (X : Externals) := CollectorSettings X.Provider X.BuildInfo X.Rest

/-- A call made by the run function to one of the external functions, with its
arguments. -/
inductive Call (X : Externals) where
  | Apply (gates : X.Gates)
  | NewDefault (config : X.ConfigFlag) (set : X.SetFlag)
  | New (set : Settings X)
  | Run (col : X.Collector) (ctx : X.Context)

/-- What one call of the run function leaves behind: the captured variable
`set`, the state of the process, the returned error (`none` for nil) and the
external calls made, in order. -/
structure Outcome (X : Externals) where
  set : Settings X
  world : X.World
  err : Option X.Error
  calls : List (Call X)

/-- The function literal assigned to `RunE` in `NewCommand`, on the current
value of the captured variable `set`, the context of the command and the state
of the process. -/
def RunE (X : Externals) (set : Settings X) (ctx : X.Context) (w : X.World) : Outcome X :=
  let gates := X.GetFlags w
  let w1 := X.Apply gates w
  let set1 : Settings X :=
    match set.ConfigMapProvider with
    | none =>
      { set with ConfigMapProvider := some (X.NewDefault (X.getConfigFlag w1) (X.getSetFlag w1)) }
    | some _ => set
  let calls1 : List (Call X) :=
    match set.ConfigMapProvider with
    | none => [Call.Apply gates, Call.NewDefault (X.getConfigFlag w1) (X.getSetFlag w1)]
    | some _ => [Call.Apply gates]
  match X.New set1 w1 with
  | (Except.error err, w2) =>
    { set := set1, world := w2, err := some err, calls := calls1 ++ [Call.New set1] }
  | (Except.ok col, w2) =>
    match X.Run col ctx w2 with
    | (r, w3) =>
      { set := set1, world := w3, err := r,
        calls := calls1 ++ [Call.New set1, Call.Run col ctx] }

/-- The `cobra.Command` built by `NewCommand`, as far as `NewCommand` sets it:
the fields assigned, the captured variable of the run function, and the flag
sets added. -/
structure Command (X : Externals) where
  Use : GoString
  Version : GoString
  SilenceUsage : Bool
  set : Settings X
  RunE : Settings X → X.Context → X.World → Outcome X
  goFlagSets : List X.FlagSet

/-- `NewCommand` constructs a new command using the given settings. -/
def NewCommand (X : Externals) (set : Settings X) : Command X :=
  { Use := X.buildCommand set.BuildInfo
    Version := X.buildVersion set.BuildInfo
    SilenceUsage := true
    set := set
    RunE := RunE X
    goFlagSets := [X.flags] }

/-- The first run of a command: its run function on its captured settings. -/
def Command.run {X : Externals} (cmd : Command X) (ctx : X.Context) (w : X.World) :
    Outcome X :=
  cmd.RunE cmd.set ctx w

/-- The settings passed to `New`, one for each call of it. -/
def newArgs {X : Externals} : List (Call X) → List (Settings X)
  | [] => []
  | Call.New set :: rest => set :: newArgs rest
  | _ :: rest => newArgs rest

/-- The flag values passed to `configmapprovider.NewDefault`, one pair for
each call of it. -/
def defaultArgs {X : Externals} : List (Call X) → List (X.ConfigFlag × X.SetFlag)
  | [] => []
  | Call.NewDefault c s :: rest => (c, s) :: defaultArgs rest
  | _ :: rest => defaultArgs rest

/-- The collectors and contexts on which `Run` is called, one pair for each
call of it. -/
def runArgs {X : Externals} : List (Call X) → List (X.Collector × X.Context)
  | [] => []
  | Call.Run col ctx :: rest => (col, ctx) :: runArgs rest
  | _ :: rest => runArgs rest

namespace model

/-- A small instance of the external declarations, to evaluate the run
function: providers, collectors, errors and flag values are numbers, the state
of the process counts the calls that change it, the default provider is the sum
of the two flag values, `New` fails with error 7 on provider 0 and otherwise
returns the collector numbered by the provider, and `Run` returns nil on an
even collector and error 9 on an odd one. -/
def externals : Externals where
  Provider := Nat
  BuildInfo := GoString × GoString
  Rest := Nat
  Collector := Nat
  Error := Nat
  Context := Nat
  World := Nat
  Gates := Nat
  ConfigFlag := Nat
  SetFlag := Nat
  FlagSet := Nat
  buildCommand := fun b => b.1
  buildVersion := fun b => b.2
  GetFlags := fun w => w
  Apply := fun _ w => w + 1
  getConfigFlag := fun w => w + 2
  getSetFlag := fun w => w + 3
  NewDefault := fun c s => c + s
  New := fun set w =>
    match set.ConfigMapProvider with
    | some 0 => (Except.error 7, w + 1)
    | some (p + 1) => (Except.ok (p + 1), w + 1)
    | none => (Except.error 8, w + 1)
  Run := fun col _ w => (if col % 2 = 0 then none else some 9, w + 1)
  flags := 0

/-- Settings with the provider 4. -/
def withProvider : Settings externals :=
  { BuildInfo := ([111], [49]), ConfigMapProvider := some (4 : Nat), rest := (5 : Nat) }

/-- Settings with a nil provider. -/
def withoutProvider : Settings externals :=
  { BuildInfo := ([111], [49]), ConfigMapProvider := none, rest := (5 : Nat) }

/-- Settings with the provider 0, on which `New` fails. -/
def failingProvider : Settings externals :=
  { BuildInfo := ([111], [49]), ConfigMapProvider := some (0 : Nat), rest := (5 : Nat) }

end model

end service

/-! ## The order of `sort.Strings` and the canonical list -/

theorem strLess_irrefl (a : GoString) : strLess a a = false := by
  induction a with
  | nil => rfl
  | cons x xs ih => simp [strLess, ih]

theorem strLess_asymm : ∀ (a b : GoString), strLess a b = true → strLess b a = false
  | [], [], h => by simp [strLess] at h
  | [], _ :: _, _ => by simp [strLess]
  | _ :: _, [], h => by simp [strLess] at h
  | x :: xs, y :: ys, h => by
    simp only [strLess] at h ⊢
    split_ifs at h ⊢ with h1 h2 h3
    all_goals first | omega | exact strLess_asymm xs ys h | simp_all

theorem strLess_total : ∀ (a b : GoString), strLess a b = true ∨ a = b ∨ strLess b a = true
  | [], [] => by simp
  | [], _ :: _ => by simp [strLess]
  | _ :: _, [] => by simp [strLess]
  | x :: xs, y :: ys => by
    simp only [strLess]
    rcases Nat.lt_trichotomy x y with h | h | h
    · simp [h]
    · subst h
      simpa using strLess_total xs ys
    · have : ¬ x < y := by omega
      simp [h, this]

theorem strLess_trans : ∀ (a b c : GoString), strLess a b = true → strLess b c = true →
    strLess a c = true
  | [], _, [], _, h2 => by cases ‹GoString› <;> simp [strLess] at h2
  | [], _, _ :: _, _, _ => by simp [strLess]
  | _ :: _, [], _, h1, _ => by simp [strLess] at h1
  | _ :: _, _ :: _, [], _, h2 => by simp [strLess] at h2
  | x :: xs, y :: ys, z :: zs, h1, h2 => by
    simp only [strLess] at h1 h2 ⊢
    split_ifs at h1 h2 ⊢ with a1 a2 a3 a4 a5 a6
    all_goals first | omega | rfl | exact strLess_trans xs ys zs h1 h2

instance sortLe_isTotal : IsTotal GoString sortLe where
  total a b := by
    cases h : strLess b a with
    | false => exact Or.inl h
    | true => exact Or.inr (strLess_asymm b a h)

instance sortLe_isTrans : IsTrans GoString sortLe where
  trans a b c hab hbc := by
    show strLess c a = false
    cases h : strLess c a with
    | false => rfl
    | true =>
      rcases strLess_total a b with h1 | h1 | h1
      · have := strLess_trans c a b h h1
        simp [sortLe] at hbc; simp [hbc] at this
      · subst h1; simp [sortLe] at hbc; simp [hbc] at h
      · simp [sortLe] at hab; simp [hab] at h1

instance sortLe_isAntisymm : IsAntisymm GoString sortLe where
  antisymm a b hab hba := by
    rcases strLess_total a b with h | h | h
    · simp [sortLe] at hba; simp [hba] at h
    · exact h
    · simp [sortLe] at hab; simp [hab] at h

theorem sort_Strings_perm (x : List GoString) : (sort.Strings x).Perm x :=
  List.perm_insertionSort _ x

theorem sort_Strings_sorted (x : List GoString) : (sort.Strings x).Sorted sortLe :=
  List.sorted_insertionSort sortLe x

theorem mem_Compact {α : Type} [DecidableEq α] (a : α) :
    ∀ l : List α, a ∈ slices.Compact l ↔ a ∈ l
  | [] => by simp [slices.Compact]
  | [b] => by simp [slices.Compact]
  | b :: c :: rest => by
    have ih := mem_Compact a (c :: rest)
    simp only [slices.Compact]
    split_ifs with h
    · subst h
      rw [ih]; simp
    · simp only [List.mem_cons] at ih ⊢
      rw [ih]

theorem Compact_strict : ∀ l : List GoString, l.Sorted sortLe →
    (slices.Compact l).Pairwise (fun a b => strLess a b = true)
  | [], _ => by simp [slices.Compact]
  | [b], _ => by simp [slices.Compact]
  | b :: c :: rest, hs => by
    have hs' : (c :: rest).Sorted sortLe := (List.sorted_cons.1 hs).2
    have ih := Compact_strict (c :: rest) hs'
    simp only [slices.Compact]
    split_ifs with h
    · exact ih
    · refine List.pairwise_cons.2 ⟨?_, ih⟩
      intro z hz
      rw [mem_Compact] at hz
      have hbc : sortLe b c := (List.sorted_cons.1 hs).1 c (List.mem_cons_self _ _)
      have hcz : sortLe c z := by
        rcases List.mem_cons.1 hz with rfl | hz'
        · exact strLess_irrefl _
        · exact (List.sorted_cons.1 hs').1 z hz'
      rcases strLess_total b z with h1 | h1 | h1
      · exact h1
      · subst h1
        exact absurd (sortLe_isAntisymm.antisymm _ _ hbc hcz) h
      · have := sortLe_isTrans.trans _ _ _ hbc hcz
        simp [sortLe] at this; simp [this] at h1

theorem mem_canon (a : GoString) (x : List GoString) : a ∈ canon x ↔ a ∈ x := by
  unfold canon
  rw [mem_Compact]
  exact (sort_Strings_perm x).mem_iff

theorem canon_strict (x : List GoString) :
    (canon x).Pairwise (fun a b => strLess a b = true) :=
  Compact_strict _ (sort_Strings_sorted x)

theorem strict_unique (l₁ l₂ : List GoString)
    (h₁ : l₁.Pairwise (fun a b => strLess a b = true))
    (h₂ : l₂.Pairwise (fun a b => strLess a b = true))
    (h : ∀ a, a ∈ l₁ ↔ a ∈ l₂) : l₁ = l₂ := by
  have nd : ∀ l : List GoString, l.Pairwise (fun a b => strLess a b = true) → l.Nodup := by
    intro l hl
    refine List.Pairwise.imp ?_ hl
    intro a b hab hEq
    subst hEq
    simp [strLess_irrefl] at hab
  have le : ∀ l : List GoString, l.Pairwise (fun a b => strLess a b = true) →
      l.Sorted sortLe := by
    intro l hl
    refine List.Pairwise.imp ?_ hl
    intro a b hab
    exact strLess_asymm a b hab
  exact List.eq_of_perm_of_sorted ((List.perm_ext_iff_of_nodup (nd _ h₁) (nd _ h₂)).2 h)
    (le _ h₁) (le _ h₂)

theorem canon_eq_of_mem_iff (x y : List GoString) (h : ∀ a, a ∈ x ↔ a ∈ y) :
    canon x = canon y :=
  strict_unique _ _ (canon_strict x) (canon_strict y)
    (fun a => by rw [mem_canon, mem_canon]; exact h a)

namespace componentstatus

variable {CID PID K : Type}

theorem appendStrings_eq (E : Deps CID PID) (ps : List PID) :
    ∀ strIDs, appendStrings E strIDs ps = strIDs ++ ps.map E.pipelineString := by
  induction ps with
  | nil => intro s; simp [appendStrings]
  | cons p rest ih => intro s; simp [appendStrings, ih]

theorem addPipelines_pipelineIDs (E : Deps CID PID) (id : InstanceID CID K) (ps : List PID) :
    (id.addPipelines E ps).pipelineIDs =
      strings.Join (canon (strings.Split id.pipelineIDs pipelineDelim ++
        ps.map E.pipelineString)) pipelineDelim ++ [pipelineDelim] := by
  simp [InstanceID.addPipelines, appendStrings_eq, canon]

theorem New_pipelineIDs (E : Deps CID PID) (c : CID) (k : K) (ps : List PID) :
    (NewInstanceIDWithPipelineIDs E c k ps).pipelineIDs =
      strings.Join (canon ([] :: ps.map E.pipelineString)) pipelineDelim ++ [pipelineDelim] := by
  simp [NewInstanceIDWithPipelineIDs, addPipelines_pipelineIDs, strings.Split]

theorem New_eq (E : Deps CID PID) (c : CID) (k : K) (ps : List PID) :
    NewInstanceIDWithPipelineIDs E c k ps =
      { componentID := c, kind := k,
        pipelineIDs := strings.Join (canon ([] :: ps.map E.pipelineString)) pipelineDelim ++
          [pipelineDelim] } := by
  simp [NewInstanceIDWithPipelineIDs, InstanceID.addPipelines, appendStrings_eq, canon,
    strings.Split]

theorem Split_append_delim (d : Nat) (rest : GoString) :
    ∀ a : GoString, d ∉ a → strings.Split (a ++ d :: rest) d = a :: strings.Split rest d
  | [], _ => by simp [strings.Split]
  | b :: a, h => by
    have hb : b ≠ d := fun e => h (by simp [e])
    have ha : d ∉ a := fun e => h (by simp [e])
    simp [strings.Split, hb, Split_append_delim d rest a ha]

theorem Split_Join (d : Nat) :
    ∀ L : List GoString, L ≠ [] → (∀ a ∈ L, d ∉ a) →
      strings.Split (strings.Join L d ++ [d]) d = L ++ [[]]
  | [], h, _ => absurd rfl h
  | [a], _, hL => by
    have := Split_append_delim d [] a (hL a (by simp))
    simpa [strings.Join, strings.Split] using this
  | a :: b :: rest, _, hL => by
    have ih := Split_Join d (b :: rest) (by simp) (fun x hx => hL x (by simp [hx]))
    have h1 := Split_append_delim d (strings.Join (b :: rest) d ++ [d]) a (hL a (by simp))
    simp only [strings.Join, List.append_assoc, List.cons_append] at h1 ⊢
    rw [h1, ih]
    rfl

theorem segmentsFrom_append_delim (rest : GoString) :
    ∀ (a bs : GoString), pipelineDelim ∉ a →
      segmentsFrom (a ++ pipelineDelim :: rest) bs = (bs ++ a) :: segmentsFrom rest []
  | [], bs, _ => by simp [segmentsFrom]
  | b :: a, bs, h => by
    have hb : b ≠ pipelineDelim := fun e => h (by simp [e])
    have ha : pipelineDelim ∉ a := fun e => h (by simp [e])
    simp [segmentsFrom, hb, segmentsFrom_append_delim rest a (bs ++ [b]) ha]

theorem segments_Join :
    ∀ L : List GoString, L ≠ [] → (∀ a ∈ L, pipelineDelim ∉ a) →
      segments (strings.Join L pipelineDelim ++ [pipelineDelim]) = L
  | [], h, _ => absurd rfl h
  | [a], _, hL => by
    have := segmentsFrom_append_delim [] a [] (hL a (by simp))
    simpa [strings.Join, segments, segmentsFrom] using this
  | a :: b :: rest, _, hL => by
    have ih := segments_Join (b :: rest) (by simp) (fun x hx => hL x (by simp [hx]))
    have h1 := segmentsFrom_append_delim (strings.Join (b :: rest) pipelineDelim ++
      [pipelineDelim]) a [] (hL a (by simp))
    simp only [segments, strings.Join, List.append_assoc, List.cons_append,
      List.nil_append] at h1 ih ⊢
    rw [h1, ih]

theorem canon_ne_nil (x : List GoString) (a : GoString) (h : a ∈ x) : canon x ≠ [] := by
  intro e
  have := (mem_canon a x).2 h
  simp [e] at this

theorem visitLoop_eq {ID σ : Type} (unmarshal : GoString → Option ID) (f : σ → ID → Bool × σ) :
    ∀ (s bs : GoString) (st : σ),
      visitLoop unmarshal f s bs st = visitSeq f ((segmentsFrom s bs).filterMap unmarshal) st
  | [], _, _ => by simp [visitLoop, segmentsFrom, visitSeq]
  | b :: rest, bs, st => by
    by_cases hb : b = pipelineDelim
    · simp only [visitLoop, segmentsFrom, hb, ne_eq, not_true_eq_false, if_false]
      cases hu : unmarshal bs with
      | none => simp [List.filterMap_cons, hu, visitLoop_eq unmarshal f rest [] st]
      | some p =>
        simp only [List.filterMap_cons, hu, visitSeq]
        split_ifs with h1
        · rfl
        · exact visitLoop_eq unmarshal f rest [] _
    · simp only [visitLoop, segmentsFrom, hb, ne_eq, not_false_eq_true, if_true]
      exact visitLoop_eq unmarshal f rest _ st

theorem visitSeq_recording {ID : Type} (g : ID → Bool) :
    ∀ (l acc : List ID),
      visitSeq (recording g) l acc = acc ++ l.take (l.findIdx (fun p => !g p) + 1)
  | [], acc => by simp [visitSeq]
  | p :: rest, acc => by
    simp only [visitSeq, recording, List.findIdx_cons]
    cases hg : g p with
    | false => simp
    | true => simp [visitSeq_recording g rest (acc ++ [p]), recording]

theorem visitSeq_always {ID σ : Type} (f : σ → ID → Bool × σ) (h : ∀ s p, (f s p).1 = true) :
    ∀ (l : List ID) (st : σ), visitSeq f l st = l.foldl (fun s p => (f s p).2) st
  | [], _ => rfl
  | p :: rest, st => by
    simp [visitSeq, h, visitSeq_always f h rest]

theorem filterMap_map_of_roundtrip (str : PID → GoString) (unmarshal : GoString → Option PID) :
    ∀ l : List GoString, (∀ s ∈ l, ∃ p, unmarshal s = some p ∧ str p = s) →
      (l.filterMap unmarshal).map str = l
  | [], _ => rfl
  | s :: rest, h => by
    obtain ⟨p, hp, hs⟩ := h s (by simp)
    have ih := filterMap_map_of_roundtrip str unmarshal rest (fun x hx => h x (by simp [hx]))
    simp [List.filterMap_cons, hp, hs, ih]

theorem canon_nil_cons (S : List GoString) (h : ∀ s ∈ S, s ≠ []) :
    canon ([] :: S) = [] :: canon S := by
  apply strict_unique _ _ (canon_strict _)
  · refine List.pairwise_cons.2 ⟨?_, canon_strict S⟩
    intro a ha
    rw [mem_canon] at ha
    cases a with
    | nil => exact absurd rfl (h _ ha)
    | cons b bs => rfl
  · intro a
    simp [mem_canon]

theorem segments_New (E : Deps CID PID) (c : CID) (k : K) (ps : List PID)
    (hfree : ∀ p ∈ ps, pipelineDelim ∉ E.pipelineString p) :
    segments (NewInstanceIDWithPipelineIDs E c k ps).pipelineIDs =
      canon ([] :: ps.map E.pipelineString) := by
  rw [New_pipelineIDs]
  apply segments_Join _ (canon_ne_nil _ [] (by simp))
  intro a ha
  rw [mem_canon] at ha
  rcases List.mem_cons.1 ha with rfl | ha
  · simp
  · obtain ⟨p, hp, rfl⟩ := List.mem_map.1 ha
    exact hfree p hp

theorem pipelineSeq_New (E : Deps CID PID) (c : CID) (k : K) (ps : List PID)
    (hempty : E.pipelineUnmarshalText [] = none)
    (hne : ∀ p ∈ ps, E.pipelineString p ≠ [])
    (hfree : ∀ p ∈ ps, pipelineDelim ∉ E.pipelineString p) :
    (NewInstanceIDWithPipelineIDs E c k ps).pipelineSeq E =
      (canon (ps.map E.pipelineString)).filterMap E.pipelineUnmarshalText := by
  unfold InstanceID.pipelineSeq
  rw [segments_New E c k ps hfree, canon_nil_cons]
  · simp [List.filterMap_cons, hempty]
  · intro s hs
    obtain ⟨p, hp, rfl⟩ := List.mem_map.1 hs
    exact hne p hp

theorem New_eq_of_perm (E : Deps CID PID) (c : CID) (k : K) (ps ps' : List PID)
    (h : ps.Perm ps') :
    NewInstanceIDWithPipelineIDs E c k ps = NewInstanceIDWithPipelineIDs E c k ps' := by
  rw [New_eq, New_eq]
  have : canon ([] :: ps.map E.pipelineString) = canon ([] :: ps'.map E.pipelineString) := by
    apply canon_eq_of_mem_iff
    intro a
    simp only [List.mem_cons, List.mem_map]
    constructor
    · rintro (h1 | ⟨p, hp, rfl⟩)
      · exact Or.inl h1
      · exact Or.inr ⟨p, h.mem_iff.1 hp, rfl⟩
    · rintro (h1 | ⟨p, hp, rfl⟩)
      · exact Or.inl h1
      · exact Or.inr ⟨p, h.mem_iff.2 hp, rfl⟩
  rw [this]

theorem With_New (E : Deps CID PID) (c : CID) (k : K) (ps extra : List PID)
    (h : ∀ p ∈ ps, pipelineDelim ∉ E.pipelineString p) :
    (NewInstanceIDWithPipelineIDs E c k ps).WithPipelineIDs E extra =
      NewInstanceIDWithPipelineIDs E c k (ps ++ extra) := by
  have hfree : ∀ a ∈ canon ([] :: ps.map E.pipelineString), pipelineDelim ∉ a := by
    intro a ha
    rw [mem_canon] at ha
    rcases List.mem_cons.1 ha with rfl | ha
    · simp
    · obtain ⟨p, hp, rfl⟩ := List.mem_map.1 ha
      exact h p hp
  have hsplit := Split_Join pipelineDelim _ (canon_ne_nil _ [] (by simp)) hfree
  rw [New_eq, New_eq]
  simp only [InstanceID.WithPipelineIDs, InstanceID.addPipelines, appendStrings_eq, hsplit]
  congr 2
  show strings.Join (canon _) _ = _
  congr 1
  apply canon_eq_of_mem_iff
  intro a
  simp only [List.mem_append, List.mem_cons, List.map_append, mem_canon, List.mem_singleton,
    List.not_mem_nil, or_false]
  tauto

theorem New_eq_of_mem_iff (E : Deps CID PID) (c : CID) (k : K) (ps ps' : List PID)
    (h : ∀ p, p ∈ ps ↔ p ∈ ps') :
    NewInstanceIDWithPipelineIDs E c k ps = NewInstanceIDWithPipelineIDs E c k ps' := by
  rw [New_eq, New_eq]
  have : canon ([] :: ps.map E.pipelineString) = canon ([] :: ps'.map E.pipelineString) := by
    apply canon_eq_of_mem_iff
    intro a
    simp only [List.mem_cons, List.mem_map]
    constructor
    · rintro (h1 | ⟨p, hp, rfl⟩)
      · exact Or.inl h1
      · exact Or.inr ⟨p, (h p).1 hp, rfl⟩
    · rintro (h1 | ⟨p, hp, rfl⟩)
      · exact Or.inl h1
      · exact Or.inr ⟨p, (h p).2 hp, rfl⟩
  rw [this]

theorem strict_nodup (l : List GoString) (hl : l.Pairwise (fun a b => strLess a b = true)) :
    l.Nodup := by
  refine List.Pairwise.imp ?_ hl
  intro a b hab hEq
  subst hEq
  simp [strLess_irrefl] at hab

theorem count_eq_one_of_nodup_mem {α : Type} [BEq α] [LawfulBEq α] (a : α) :
    ∀ l : List α, l.Nodup → a ∈ l → l.count a = 1
  | [], _, h => by simp at h
  | b :: rest, hnd, h => by
    rw [List.nodup_cons] at hnd
    rw [List.count_cons]
    by_cases hab : b = a
    · subst hab
      simp [List.count_eq_zero.2 hnd.1]
    · have hmem : a ∈ rest := by
        rcases List.mem_cons.1 h with h1 | h1
        · exact absurd h1.symm hab
        · exact h1
      simp [hab, count_eq_one_of_nodup_mem a rest hnd.2 hmem]

theorem count_segments_New (E : Deps CID PID) (c : CID) (k : K) (ps : List PID)
    (hfree : ∀ p ∈ ps, pipelineDelim ∉ E.pipelineString p) (p : PID) (hp : p ∈ ps) :
    (segments (NewInstanceIDWithPipelineIDs E c k ps).pipelineIDs).count (E.pipelineString p)
      = 1 := by
  rw [segments_New E c k ps hfree]
  apply count_eq_one_of_nodup_mem _ _ (strict_nodup _ (canon_strict _))
  rw [mem_canon]
  exact List.mem_cons_of_mem _ (List.mem_map_of_mem _ hp)

theorem All_eq_visitSeq {σ : Type} (E : Deps CID PID) (id : InstanceID CID K)
    (f : σ → PID → Bool × σ) (st : σ) :
    id.AllPipelineIDsWithPipelineIDs E f st = visitSeq f (id.pipelineSeq E) st :=
  visitLoop_eq _ f _ [] st

theorem AllC_eq_visitSeq {σ : Type} (E : Deps CID PID) (id : InstanceID CID K)
    (f : σ → CID → Bool × σ) (st : σ) :
    id.AllPipelineIDs E f st = visitSeq f (id.componentSeq E) st :=
  visitLoop_eq _ f _ [] st

theorem take_findIdx_length {ID : Type} (g : ID → Bool) (l : List ID) :
    (l.take (l.findIdx (fun p => !g p) + 1)).length =
      if l.findIdx (fun p => !g p) < l.length then l.findIdx (fun p => !g p) + 1
      else l.length := by
  rw [List.length_take]
  split_ifs with h
  · omega
  · omega

theorem filterMap_filter_of_none {α β : Type} (um : α → Option β) (q : α → Bool) :
    ∀ l : List α, (∀ s ∈ l, q s = false → um s = none) →
      (l.filter q).filterMap um = l.filterMap um
  | [], _ => rfl
  | s :: rest, h => by
    have ih := filterMap_filter_of_none um q rest (fun x hx => h x (by simp [hx]))
    cases hq : q s with
    | true => simp [List.filter_cons, hq, List.filterMap_cons, ih]
    | false => simp [List.filter_cons, hq, List.filterMap_cons, h s (by simp) hq, ih]

theorem pipelineSeq_without (E : Deps CID PID) (c : CID) (k : K) (ps : List PID)
    (hfree : ∀ p ∈ ps, pipelineDelim ∉ E.pipelineString p) (p : PID)
    (hbad : E.pipelineUnmarshalText (E.pipelineString p) = none) :
    (NewInstanceIDWithPipelineIDs E c k ps).pipelineSeq E =
      (NewInstanceIDWithPipelineIDs E c k
        (ps.filter (fun q => decide (E.pipelineString q ≠ E.pipelineString p)))).pipelineSeq
        E := by
  have hfree' : ∀ q ∈ ps.filter (fun q => decide (E.pipelineString q ≠ E.pipelineString p)),
      pipelineDelim ∉ E.pipelineString q := fun q hq => hfree q (List.mem_filter.1 hq).1
  unfold InstanceID.pipelineSeq
  rw [segments_New E c k ps hfree, segments_New E c k _ hfree']
  have hcanon : canon ([] :: (ps.filter
      (fun q => decide (E.pipelineString q ≠ E.pipelineString p))).map E.pipelineString) =
      (canon ([] :: ps.map E.pipelineString)).filter
        (fun s => decide (s ≠ E.pipelineString p) || decide (s = [])) := by
    apply strict_unique _ _ (canon_strict _) ((canon_strict _).filter _)
    intro a
    simp only [mem_canon, List.mem_filter, List.mem_cons, List.mem_map, Bool.or_eq_true,
      decide_eq_true_eq]
    constructor
    · rintro (h1 | ⟨q, ⟨hq, hne⟩, rfl⟩)
      · exact ⟨Or.inl h1, Or.inr h1⟩
      · exact ⟨Or.inr ⟨q, hq, rfl⟩, Or.inl hne⟩
    · rintro ⟨h1 | ⟨q, hq, rfl⟩, h2⟩
      · exact Or.inl h1
      · rcases h2 with h2 | h2
        · exact Or.inr ⟨q, ⟨hq, h2⟩, rfl⟩
        · exact Or.inl h2
  rw [hcanon, filterMap_filter_of_none]
  intro s _ hq
  simp only [Bool.or_eq_false_iff, decide_eq_false_iff_not, not_not] at hq
  rw [hq.1]
  exact hbad

theorem convert_isSome (E : Deps CID PID) :
    ∀ ids : List CID, (convertToPipelineIDs E ids).isSome = true ↔
      ∀ id ∈ ids, (if E.name id ≠ [] then E.MustNewIDWithName (E.typeString id) (E.name id)
        else E.MustNewID (E.typeString id)).isSome = true
  | [] => by simp [convertToPipelineIDs]
  | id :: rest => by
    have ih := convert_isSome E rest
    simp only [convertToPipelineIDs, List.mem_cons, forall_eq_or_imp]
    rw [← ih]
    cases h1 : (if E.name id ≠ [] then E.MustNewIDWithName (E.typeString id) (E.name id)
        else E.MustNewID (E.typeString id)) with
    | none => simp
    | some p =>
      cases h2 : convertToPipelineIDs E rest with
      | none => simp
      | some ps => simp

theorem NewInstanceID_eq (E : Deps CID PID) (c : CID) (k : K) (ids : List CID) :
    NewInstanceID E c k ids =
      (convertToPipelineIDs E ids).map (NewInstanceIDWithPipelineIDs E c k) := by
  unfold NewInstanceID
  cases convertToPipelineIDs E ids with
  | none => rfl
  | some ps => rfl

theorem ptr_addPipelines_new (E : Deps CID PID) (s : Store CID K) (v : InstanceID CID K)
    (ps : List PID) :
    ∃ s', ptr.addPipelines E (s.new v).1 (s.new v).2 ps = some s' ∧
      (∀ (a : Nat) (w : InstanceID CID K), s[a]? = some w → s'[a]? = some w) ∧
      s[(s.new v).2]? = none ∧ s'[(s.new v).2]? = some (v.addPipelines E ps) := by
  have hget : (s ++ [v])[s.length]? = some v := by simp
  refine ⟨(s ++ [v]).set s.length (v.addPipelines E ps), ?_, ?_, ?_, ?_⟩
  · simp [ptr.addPipelines, Store.new]
  · intro a w h
    have hlt : a < s.length := by
      by_contra hge
      rw [List.getElem?_eq_none (by omega)] at h
      cases h
    rw [List.getElem?_set_ne (by omega), List.getElem?_append_left hlt]
    exact h
  · simp [Store.new]
  · simp [Store.new]

theorem extend_New (E : Deps CID PID) (c : CID) (k : K) :
    ∀ (exts : List (List PID)) (ps : List PID),
      (∀ p ∈ ps ++ exts.flatten, pipelineDelim ∉ E.pipelineString p) →
      extend E (NewInstanceIDWithPipelineIDs E c k ps) exts =
        NewInstanceIDWithPipelineIDs E c k (ps ++ exts.flatten)
  | [], ps, _ => by simp [extend]
  | e :: rest, ps, h => by
    have h1 : ∀ p ∈ ps, pipelineDelim ∉ E.pipelineString p :=
      fun p hp => h p (List.mem_append_left _ hp)
    have h2 : ∀ p ∈ (ps ++ e) ++ rest.flatten, pipelineDelim ∉ E.pipelineString p := by
      intro p hp
      apply h p
      simpa [List.append_assoc] using hp
    rw [extend, With_New E c k ps e h1, extend_New E c k rest (ps ++ e) h2]
    simp [List.append_assoc]


theorem Join_append_delim :
    ∀ L : List GoString, L ≠ [] →
      strings.Join L pipelineDelim ++ [pipelineDelim] = encodeSegments L
  | [], h => absurd rfl h
  | [a], _ => by simp [strings.Join, encodeSegments]
  | a :: b :: rest, _ => by
    have ih := Join_append_delim (b :: rest) (by simp)
    simp only [strings.Join, List.append_assoc, List.cons_append, encodeSegments] at ih ⊢
    rw [ih]


theorem getLast_addPipelines (E : Deps CID PID) (id : InstanceID CID K) (ps : List PID) :
    (id.addPipelines E ps).pipelineIDs.getLast? = some pipelineDelim := by
  rw [addPipelines_pipelineIDs]
  simp


theorem canonical_form_New (E : Deps CID PID) (c : CID) (k : K) (ms : List PID)
    (hne : ∀ p ∈ ms, E.pipelineString p ≠ [])
    (hfree : ∀ p ∈ ms, pipelineDelim ∉ E.pipelineString p) :
    ∃ ss : List GoString,
      ss.Pairwise (fun a b => strLess a b = true) ∧
      (∀ s, s ∈ ss ↔ s ∈ ms.map E.pipelineString) ∧
      (NewInstanceIDWithPipelineIDs E c k ms).pipelineIDs = pipelineDelim :: encodeSegments ss ∧
      segments (NewInstanceIDWithPipelineIDs E c k ms).pipelineIDs = [] :: ss ∧
      ([] :: ss).Pairwise (fun a b => strLess a b = true) ∧
      (NewInstanceIDWithPipelineIDs E c k ms).pipelineIDs.getLast? = some pipelineDelim := by
  have hS : ∀ s ∈ ms.map E.pipelineString, s ≠ [] := by
    intro s hs
    obtain ⟨p, hp, rfl⟩ := List.mem_map.1 hs
    exact hne p hp
  have hcanon := canon_nil_cons (ms.map E.pipelineString) hS
  refine ⟨canon (ms.map E.pipelineString), canon_strict _, fun s => mem_canon s _, ?_, ?_, ?_, ?_⟩
  · rw [New_pipelineIDs, Join_append_delim _ (canon_ne_nil _ [] (by simp)), hcanon]
    simp [encodeSegments]
  · rw [segments_New E c k ms hfree, hcanon]
  · rw [← hcanon]; exact canon_strict _
  · exact getLast_addPipelines E _ ms


theorem New_append_absorb (E : Deps CID PID) (c : CID) (k : K) (ms extra : List PID)
    (hmem : ∀ p ∈ extra, E.pipelineString p ∈ ms.map E.pipelineString) :
    NewInstanceIDWithPipelineIDs E c k (ms ++ extra) = NewInstanceIDWithPipelineIDs E c k ms := by
  rw [New_eq, New_eq]
  have : canon ([] :: (ms ++ extra).map E.pipelineString) =
      canon ([] :: ms.map E.pipelineString) := by
    apply canon_eq_of_mem_iff
    intro a
    simp only [List.mem_cons, List.map_append, List.mem_append]
    constructor
    · rintro (h | h | h)
      · exact Or.inl h
      · exact Or.inr h
      · obtain ⟨p, hp, rfl⟩ := List.mem_map.1 h
        exact Or.inr (hmem p hp)
    · rintro (h | h)
      · exact Or.inl h
      · exact Or.inr (Or.inl h)
  rw [this]


theorem New_append_comm (E : Deps CID PID) (c : CID) (k : K) (ps a b : List PID) :
    NewInstanceIDWithPipelineIDs E c k (ps ++ a ++ b) =
      NewInstanceIDWithPipelineIDs E c k (ps ++ b ++ a) := by
  apply New_eq_of_perm
  rw [List.append_assoc, List.append_assoc]
  exact List.Perm.append_left ps List.perm_append_comm


theorem addPipelines_congr (E : Deps CID PID) (id : InstanceID CID K) (ps ps' : List PID)
    (h : ps.map E.pipelineString = ps'.map E.pipelineString) :
    id.addPipelines E ps = id.addPipelines E ps' := by
  simp only [InstanceID.addPipelines, appendStrings_eq, h]


theorem convert_spec (E : Deps CID PID) :
    ∀ ids : List CID, (∀ id ∈ ids, Converts E id) →
      ∃ ps, convertToPipelineIDs E ids = some ps ∧
        List.Forall₂ (fun id p =>
          (E.name id = [] → E.MustNewID (E.typeString id) = some p) ∧
          (E.name id ≠ [] → E.MustNewIDWithName (E.typeString id) (E.name id) = some p))
          ids ps
  | [], _ => ⟨[], rfl, List.Forall₂.nil⟩
  | id :: rest, h => by
    obtain ⟨ps, hps, hall⟩ := convert_spec E rest (fun x hx => h x (by simp [hx]))
    have hid := h id (by simp)
    unfold Converts at hid
    by_cases hn : E.name id = []
    · simp only [hn, ne_eq, not_true_eq_false, if_false] at hid
      obtain ⟨p, hp⟩ := Option.isSome_iff_exists.1 hid
      refine ⟨p :: ps, ?_, List.Forall₂.cons ⟨fun _ => hp, fun h' => absurd hn h'⟩ hall⟩
      simp [convertToPipelineIDs, hn, hp, hps]
    · simp only [hn, ne_eq, not_false_eq_true, if_true] at hid
      obtain ⟨p, hp⟩ := Option.isSome_iff_exists.1 hid
      refine ⟨p :: ps, ?_, List.Forall₂.cons ⟨fun h' => absurd h' hn, fun _ => hp⟩ hall⟩
      simp [convertToPipelineIDs, hn, hp, hps]


theorem convert_indep (E E' : Deps CID PID) (hn : E'.name = E.name)
    (ht : E'.typeString = E.typeString) (h1 : E'.MustNewID = E.MustNewID)
    (h2 : ∀ t n, n ≠ [] → E'.MustNewIDWithName t n = E.MustNewIDWithName t n) :
    ∀ ids : List CID, convertToPipelineIDs E' ids = convertToPipelineIDs E ids
  | [] => rfl
  | id :: rest => by
    have ih := convert_indep E E' hn ht h1 h2 rest
    simp only [convertToPipelineIDs, ih, hn, ht, h1]
    by_cases hne : E.name id = []
    · simp [hne]
    · simp [hne, h2 _ _ hne]


theorem forall2_strings (E : Deps CID PID) (sig nm : PID → GoString)
    (hstr : ∀ p q, sig p = sig q → nm p = nm q → E.pipelineString p = E.pipelineString q)
    (hc : ConstructorsKeep E sig nm) :
    ∀ (ids : List CID) (ps0 ps : List PID),
      List.Forall₂ (fun id p =>
          (E.name id = [] → E.MustNewID (E.typeString id) = some p) ∧
          (E.name id ≠ [] → E.MustNewIDWithName (E.typeString id) (E.name id) = some p))
          ids ps0 →
      List.Forall₂ (fun id p => sig p = E.typeString id ∧ nm p = E.name id) ids ps →
      ps0.map E.pipelineString = ps.map E.pipelineString := by
  intro ids ps0 ps h0
  induction h0 generalizing ps with
  | nil =>
    intro h
    cases h
    rfl
  | @cons id p0 ids' ps0' hhead _ ih =>
    intro h
    cases h with
    | cons hp hrest =>
      have hkeep : sig p0 = E.typeString id ∧ nm p0 = E.name id := by
        by_cases hn : E.name id = []
        · have := hc.1 _ _ (hhead.1 hn)
          exact ⟨this.1, by rw [this.2, hn]⟩
        · exact hc.2 _ _ _ (hhead.2 hn)
      simp only [List.map_cons]
      rw [ih _ hrest, hstr p0 _ (hkeep.1.trans hp.1.symm) (hkeep.2.trans hp.2.symm)]

theorem forall2_getElem {α β : Type} (R : α → β → Prop) :
    ∀ (l₁ : List α) (l₂ : List β), List.Forall₂ R l₁ l₂ →
      ∀ (i : Nat) (a : α), l₁[i]? = some a → ∃ b, l₂[i]? = some b ∧ R a b := by
  intro l₁ l₂ h
  induction h with
  | nil => intro i a hi; simp at hi
  | @cons a0 b0 l₁' l₂' hab _ ih =>
    intro i a hi
    cases i with
    | zero =>
      simp only [List.getElem?_cons_zero, Option.some.injEq] at hi
      subst hi
      exact ⟨b0, by simp, hab⟩
    | succ j =>
      simp only [List.getElem?_cons_succ] at hi ⊢
      exact ih j a hi

theorem convert_keeps (E : Deps CID PID) (sig nm : PID → GoString)
    (hc : ConstructorsKeep E sig nm) (ids : List CID) (ps0 : List PID)
    (h : List.Forall₂ (fun id p =>
          (E.name id = [] → E.MustNewID (E.typeString id) = some p) ∧
          (E.name id ≠ [] → E.MustNewIDWithName (E.typeString id) (E.name id) = some p))
          ids ps0) :
    List.Forall₂ (fun id p => sig p = E.typeString id ∧ nm p = E.name id) ids ps0 := by
  refine List.Forall₂.imp ?_ h
  intro id p hhead
  by_cases hn : E.name id = []
  · have := hc.1 _ _ (hhead.1 hn)
    exact ⟨this.1, by rw [this.2, hn]⟩
  · exact hc.2 _ _ _ (hhead.2 hn)

theorem WithPipelines_eq (E : Deps CID PID) (id : InstanceID CID K) (ids : List CID) :
    id.WithPipelines E ids = (convertToPipelineIDs E ids).map (id.WithPipelineIDs E) := by
  unfold InstanceID.WithPipelines
  cases convertToPipelineIDs E ids with
  | none => rfl
  | some ps => rfl

theorem model_constructors_keep :
    ConstructorsKeep model.deps model.PipelineID.signal model.PipelineID.name := by
  constructor
  · intro t p h
    simp only [model.deps] at h
    split_ifs at h
    cases h
    exact ⟨rfl, rfl⟩
  · intro t n p h
    simp only [model.deps] at h
    split_ifs at h
    cases h
    exact ⟨rfl, rfl⟩

/-! ## The claims -/

/-- C1: the identity does not depend on the order in which the pipelines are
given: permuted pipeline lists yield equal InstanceID values. -/
theorem NewInstanceIDWithPipelineIDs_perm (E : Deps CID PID) (c : CID) (k : K)
    (ps ps' : List PID) (h : ps.Perm ps') :
    NewInstanceIDWithPipelineIDs E c k ps = NewInstanceIDWithPipelineIDs E c k ps' :=
  New_eq_of_perm E c k ps ps' h

/-- C1 at the pipelines traces/a, traces/b, traces/c and their reversal. -/
theorem NewInstanceIDWithPipelineIDs_perm_witness :
    List.Perm [model.tracesA, model.tracesB, model.tracesC]
        [model.tracesC, model.tracesB, model.tracesA] ∧
      NewInstanceIDWithPipelineIDs model.deps model.tracesComponent model.Kind.receiver
          [model.tracesA, model.tracesB, model.tracesC] =
        NewInstanceIDWithPipelineIDs model.deps model.tracesComponent model.Kind.receiver
          [model.tracesC, model.tracesB, model.tracesA] :=
  ⟨by decide, NewInstanceIDWithPipelineIDs_perm model.deps model.tracesComponent
    model.Kind.receiver _ _ (by decide)⟩

/-- C2 as stated fails: for the pipeline "traces/b a", whose name holds the
delimiter, extending the identity by nothing re-splits the stored encoding
into "a" and "traces/b" and gives a different identity. -/
theorem WithPipelineIDs_union_counterexample :
    (NewInstanceIDWithPipelineIDs model.deps model.tracesComponent model.Kind.receiver
        [model.tracesBspaceA]).WithPipelineIDs model.deps [] ≠
      NewInstanceIDWithPipelineIDs model.deps model.tracesComponent model.Kind.receiver
        ([model.tracesBspaceA] ++ []) := by
  decide

/-- C2, amended: when no string form of the receiver's pipelines holds the
delimiter byte, extending an identity built from `ps` by `extra` gives the
identity built from `ps ++ extra`. -/
theorem WithPipelineIDs_union (E : Deps CID PID) (c : CID) (k : K) (ps extra : List PID)
    (h : ∀ p ∈ ps, pipelineDelim ∉ E.pipelineString p) :
    (NewInstanceIDWithPipelineIDs E c k ps).WithPipelineIDs E extra =
      NewInstanceIDWithPipelineIDs E c k (ps ++ extra) :=
  With_New E c k ps extra h

/-- C2, amended, at traces/a extended by traces/c and traces/b. -/
theorem WithPipelineIDs_union_witness :
    (∀ p ∈ [model.tracesA], pipelineDelim ∉ model.deps.pipelineString p) ∧
      (NewInstanceIDWithPipelineIDs model.deps model.tracesComponent model.Kind.receiver
          [model.tracesA]).WithPipelineIDs model.deps [model.tracesC, model.tracesB] =
        NewInstanceIDWithPipelineIDs model.deps model.tracesComponent model.Kind.receiver
          ([model.tracesA] ++ [model.tracesC, model.tracesB]) :=
  ⟨by decide, WithPipelineIDs_union model.deps model.tracesComponent model.Kind.receiver
    [model.tracesA] [model.tracesC, model.tracesB] (by decide)⟩

/-- C3: for well-formed pipeline IDs (string form non-empty, free of the
delimiter, and parsed back to the same ID), and `UnmarshalText` rejecting the
empty text, a visitor that always answers true is called exactly on the
distinct elements of `ps`, once each, in strictly ascending order of string
form; for the empty list it is not called at all.  The calls are those the
recording visitor sees, and every always-true visitor is run over them. -/
theorem AllPipelineIDsWithPipelineIDs_visits_members (E : Deps CID PID) (c : CID) (k : K) (ps : List PID)
    (hempty : E.pipelineUnmarshalText [] = none)
    (hne : ∀ p ∈ ps, E.pipelineString p ≠ [])
    (hfree : ∀ p ∈ ps, pipelineDelim ∉ E.pipelineString p)
    (hrt : ∀ p ∈ ps, E.pipelineUnmarshalText (E.pipelineString p) = some p) :
    ∃ calls : List PID,
      (NewInstanceIDWithPipelineIDs E c k ps).AllPipelineIDsWithPipelineIDs E
          (recording (fun _ => true)) [] = calls ∧
      (calls.map E.pipelineString).Pairwise (fun a b => strLess a b = true) ∧
      calls.Nodup ∧
      (∀ p, p ∈ calls ↔ p ∈ ps) ∧
      (ps = [] → calls = []) ∧
      ∀ (σ : Type) (f : σ → PID → Bool × σ) (st : σ), (∀ s p, (f s p).1 = true) →
        (NewInstanceIDWithPipelineIDs E c k ps).AllPipelineIDsWithPipelineIDs E f st =
          calls.foldl (fun s p => (f s p).2) st := by
  have hseq := pipelineSeq_New E c k ps hempty hne hfree
  have hrun : ∀ (σ : Type) (f : σ → PID → Bool × σ) (st : σ),
      (NewInstanceIDWithPipelineIDs E c k ps).AllPipelineIDsWithPipelineIDs E f st =
        visitSeq f ((canon (ps.map E.pipelineString)).filterMap E.pipelineUnmarshalText) st := by
    intro σ f st
    rw [← hseq]
    exact visitLoop_eq _ f _ [] st
  have hmap : ((canon (ps.map E.pipelineString)).filterMap E.pipelineUnmarshalText).map
      E.pipelineString = canon (ps.map E.pipelineString) := by
    apply filterMap_map_of_roundtrip
    intro s hs
    rw [mem_canon] at hs
    obtain ⟨p, hp, rfl⟩ := List.mem_map.1 hs
    exact ⟨p, hrt p hp, rfl⟩
  have hmem : ∀ p, p ∈ (canon (ps.map E.pipelineString)).filterMap E.pipelineUnmarshalText ↔
      p ∈ ps := by
    intro p
    rw [List.mem_filterMap]
    constructor
    · rintro ⟨s, hs, hp⟩
      rw [mem_canon] at hs
      obtain ⟨q, hq, rfl⟩ := List.mem_map.1 hs
      rw [hrt q hq] at hp
      cases hp
      exact hq
    · intro hp
      exact ⟨E.pipelineString p, (mem_canon _ _).2 (List.mem_map_of_mem _ hp), hrt p hp⟩
  have hstrict : (((canon (ps.map E.pipelineString)).filterMap E.pipelineUnmarshalText).map
      E.pipelineString).Pairwise (fun a b => strLess a b = true) := by
    rw [hmap]; exact canon_strict _
  refine ⟨_, ?_, hstrict, ?_, hmem, ?_, ?_⟩
  · rw [hrun, visitSeq_always _ (fun _ _ => rfl)]
    generalize (canon (ps.map E.pipelineString)).filterMap E.pipelineUnmarshalText = l
    have : ∀ (l acc : List PID),
        List.foldl (fun s p => (recording (fun _ => true) s p).2) acc l = acc ++ l := by
      intro l
      induction l with
      | nil => intro acc; simp
      | cons x xs ih =>
        intro acc
        rw [List.foldl_cons, ih]
        simp [recording]
    simpa using this l []
  · have := (List.pairwise_map.1 hstrict)
    refine List.Pairwise.imp ?_ this
    intro a b hab hEq
    subst hEq
    simp [strLess_irrefl] at hab
  · intro h
    subst h
    apply List.eq_nil_iff_forall_not_mem.2
    intro p hp
    simpa using (hmem p).1 hp
  · intro σ f st hf
    rw [hrun, visitSeq_always f hf]

/-- C3 at the list traces/c, traces/a, traces/b, traces/a. -/
theorem AllPipelineIDsWithPipelineIDs_visits_members_witness :
    model.deps.pipelineUnmarshalText [] = none ∧
    (∀ p ∈ [model.tracesC, model.tracesA, model.tracesB, model.tracesA],
      model.deps.pipelineString p ≠ []) ∧
    (∀ p ∈ [model.tracesC, model.tracesA, model.tracesB, model.tracesA],
      pipelineDelim ∉ model.deps.pipelineString p) ∧
    (∀ p ∈ [model.tracesC, model.tracesA, model.tracesB, model.tracesA],
      model.deps.pipelineUnmarshalText (model.deps.pipelineString p) = some p) ∧
    ∃ calls : List model.PipelineID,
      (NewInstanceIDWithPipelineIDs model.deps model.tracesComponent model.Kind.receiver
          [model.tracesC, model.tracesA, model.tracesB, model.tracesA]
        ).AllPipelineIDsWithPipelineIDs model.deps (recording (fun _ => true)) [] = calls ∧
      (calls.map model.deps.pipelineString).Pairwise (fun a b => strLess a b = true) ∧
      calls.Nodup ∧
      (∀ p, p ∈ calls ↔ p ∈ [model.tracesC, model.tracesA, model.tracesB, model.tracesA]) ∧
      ([model.tracesC, model.tracesA, model.tracesB, model.tracesA] = [] → calls = []) ∧
      ∀ (σ : Type) (f : σ → model.PipelineID → Bool × σ) (st : σ),
        (∀ s p, (f s p).1 = true) →
        (NewInstanceIDWithPipelineIDs model.deps model.tracesComponent model.Kind.receiver
            [model.tracesC, model.tracesA, model.tracesB, model.tracesA]
          ).AllPipelineIDsWithPipelineIDs model.deps f st =
          calls.foldl (fun s p => (f s p).2) st :=
  ⟨by decide, by decide, by decide, by decide,
    AllPipelineIDsWithPipelineIDs_visits_members model.deps model.tracesComponent
      model.Kind.receiver [model.tracesC, model.tracesA, model.tracesB, model.tracesA]
      (by decide) (by decide) (by decide) (by decide)⟩

/-- C4: identities built from pipeline IDs with non-empty, delimiter-free
string forms are equal only if the component IDs are equal, the kinds are
equal and the two pipeline lists have the same set of string forms. -/
theorem NewInstanceIDWithPipelineIDs_injective (E : Deps CID PID) (c c' : CID) (k k' : K) (ps ps' : List PID)
    (hne : ∀ p ∈ ps, E.pipelineString p ≠ [])
    (hfree : ∀ p ∈ ps, pipelineDelim ∉ E.pipelineString p)
    (hne' : ∀ p ∈ ps', E.pipelineString p ≠ [])
    (hfree' : ∀ p ∈ ps', pipelineDelim ∉ E.pipelineString p)
    (h : NewInstanceIDWithPipelineIDs E c k ps = NewInstanceIDWithPipelineIDs E c' k' ps') :
    c = c' ∧ k = k' ∧ ∀ s, s ∈ ps.map E.pipelineString ↔ s ∈ ps'.map E.pipelineString := by
  have hc : c = c' := by
    have := congrArg InstanceID.componentID h
    simpa [New_eq] using this
  have hk : k = k' := by
    have := congrArg InstanceID.kind h
    simpa [New_eq] using this
  refine ⟨hc, hk, ?_⟩
  have hp := congrArg (fun i => segments i.pipelineIDs) h
  simp only [segments_New E c k ps hfree, segments_New E c' k' ps' hfree'] at hp
  intro s
  have h1 := mem_canon s ([] :: ps.map E.pipelineString)
  have h2 := mem_canon s ([] :: ps'.map E.pipelineString)
  rw [hp] at h1
  have h3 := h1.symm.trans h2
  simp only [List.mem_cons] at h3
  constructor
  · intro hs
    have hs0 : s ≠ [] := by
      obtain ⟨p, hp, rfl⟩ := List.mem_map.1 hs
      exact hne p hp
    rcases h3.1 (Or.inr hs) with h4 | h4
    · exact absurd h4 hs0
    · exact h4
  · intro hs
    have hs0 : s ≠ [] := by
      obtain ⟨p, hp, rfl⟩ := List.mem_map.1 hs
      exact hne' p hp
    rcases h3.2 (Or.inr hs) with h4 | h4
    · exact absurd h4 hs0
    · exact h4

/-- C4 at two lists with the same pipelines, traces/a and traces/b. -/
theorem NewInstanceIDWithPipelineIDs_injective_witness :
    NewInstanceIDWithPipelineIDs model.deps model.tracesComponent model.Kind.receiver
        [model.tracesA, model.tracesB] =
      NewInstanceIDWithPipelineIDs model.deps model.tracesComponent model.Kind.receiver
        [model.tracesB, model.tracesA, model.tracesB] ∧
    (model.tracesComponent = model.tracesComponent ∧
      model.Kind.receiver = model.Kind.receiver ∧
      ∀ s, s ∈ [model.tracesA, model.tracesB].map model.deps.pipelineString ↔
        s ∈ [model.tracesB, model.tracesA, model.tracesB].map model.deps.pipelineString) :=
  ⟨by decide, NewInstanceIDWithPipelineIDs_injective model.deps model.tracesComponent
    model.tracesComponent model.Kind.receiver model.Kind.receiver
    [model.tracesA, model.tracesB] [model.tracesB, model.tracesA, model.tracesB]
    (by decide) (by decide) (by decide) (by decide) (by decide)⟩

/-- C5 as stated fails in its second part: for the pipelines "traces/a" and
"traces/a b" the stored encoding " traces/a traces/a b " holds the member
"traces/a" twice. -/
theorem encoding_member_once_counterexample :
    model.tracesA ∈ [model.tracesA, model.tracesAspaceB] ∧
    (segments (NewInstanceIDWithPipelineIDs model.deps model.tracesComponent
        model.Kind.receiver [model.tracesA, model.tracesAspaceB]).pipelineIDs).count
      (model.deps.pipelineString model.tracesA) = 2 := by
  decide

/-- C5, amended: lists with the same set of pipelines, whatever the
multiplicities, yield equal identities; and when no string form holds the
delimiter byte, the stored encoding holds the string form of each member
pipeline as exactly one delimiter-terminated segment. -/
theorem NewInstanceIDWithPipelineIDs_dedup (E : Deps CID PID) (c : CID) (k : K)
    (ps ps' : List PID) (h : ∀ p, p ∈ ps ↔ p ∈ ps') :
    NewInstanceIDWithPipelineIDs E c k ps = NewInstanceIDWithPipelineIDs E c k ps' ∧
    ((∀ p ∈ ps, pipelineDelim ∉ E.pipelineString p) →
      ∀ p ∈ ps, (segments (NewInstanceIDWithPipelineIDs E c k ps).pipelineIDs).count
        (E.pipelineString p) = 1) :=
  ⟨New_eq_of_mem_iff E c k ps ps' h, fun hfree p hp => count_segments_New E c k ps hfree p hp⟩

/-- C5, amended, at traces/a, traces/a, traces/b against traces/b, traces/a. -/
theorem NewInstanceIDWithPipelineIDs_dedup_witness :
    (∀ p, p ∈ [model.tracesA, model.tracesA, model.tracesB] ↔
      p ∈ [model.tracesB, model.tracesA]) ∧
    (NewInstanceIDWithPipelineIDs model.deps model.tracesComponent model.Kind.receiver
        [model.tracesA, model.tracesA, model.tracesB] =
      NewInstanceIDWithPipelineIDs model.deps model.tracesComponent model.Kind.receiver
        [model.tracesB, model.tracesA] ∧
    ((∀ p ∈ [model.tracesA, model.tracesA, model.tracesB],
        pipelineDelim ∉ model.deps.pipelineString p) →
      ∀ p ∈ [model.tracesA, model.tracesA, model.tracesB],
        (segments (NewInstanceIDWithPipelineIDs model.deps model.tracesComponent
          model.Kind.receiver [model.tracesA, model.tracesA, model.tracesB]).pipelineIDs).count
          (model.deps.pipelineString p) = 1)) :=
  ⟨by intro p; simp; tauto,
    NewInstanceIDWithPipelineIDs_dedup model.deps model.tracesComponent model.Kind.receiver
      [model.tracesA, model.tracesA, model.tracesB] [model.tracesB, model.tracesA]
      (by intro p; simp; tauto)⟩

/-- C6: no public operation changes an identity after construction.  On a heap
`s` in which the receiver pointer `id` holds `v`: `WithPipelineIDs` returns,
leaves every object of `s` (the receiver among them) as it was, and writes only
the freshly allocated object it returns; `WithPipelines` does the same whenever
it returns, which it does unless the conversion panics; the iterators and the
accessors return with the heap unchanged. -/
theorem receiver_unchanged (E : Deps CID PID) (s : Store CID K) (id : Nat)
    (v : InstanceID CID K) (h : s[id]? = some v) :
    (∀ pids : List PID, ∃ s' q, ptr.WithPipelineIDs E s id pids = some (s', q) ∧
      (∀ (a : Nat) (w : InstanceID CID K), s[a]? = some w → s'[a]? = some w) ∧ s'[id]? = some v ∧
      s[q]? = none ∧ s'[q]? = some (v.WithPipelineIDs E pids)) ∧
    (∀ (cids : List CID) (s' : Store CID K) (q : Nat), ptr.WithPipelines E s id cids = some (s', q) →
      (∀ (a : Nat) (w : InstanceID CID K), s[a]? = some w → s'[a]? = some w) ∧ s'[id]? = some v ∧
      s[q]? = none ∧ s'[q]? = v.WithPipelines E cids) ∧
    (∀ cids : List CID, (ptr.WithPipelines E s id cids).isSome =
      (convertToPipelineIDs E cids).isSome) ∧
    (∀ (σ : Type) (f : σ → PID → Bool × σ) (st : σ),
      ptr.AllPipelineIDsWithPipelineIDs E s id f st =
        some (s, v.AllPipelineIDsWithPipelineIDs E f st)) ∧
    (∀ (σ : Type) (f : σ → CID → Bool × σ) (st : σ),
      ptr.AllPipelineIDs E s id f st = some (s, v.AllPipelineIDs E f st)) ∧
    ptr.ComponentID s id = some (s, v.componentID) ∧
    ptr.Kind s id = some (s, v.kind) := by
  refine ⟨?_, ?_, ?_, ?_, ?_, ?_, ?_⟩
  · intro pids
    obtain ⟨s', h1, h2, h3, h4⟩ := ptr_addPipelines_new E s
      { componentID := v.componentID, kind := v.kind, pipelineIDs := v.pipelineIDs } pids
    refine ⟨s', s.length, ?_, h2, h2 id v h, h3, h4⟩
    simp only [ptr.WithPipelineIDs, h]
    simp only [Store.new] at h1 ⊢
    rw [h1]
  · intro cids s' q hw
    simp only [ptr.WithPipelines, h] at hw
    cases hc : convertToPipelineIDs E cids with
    | none => simp [Store.new, hc] at hw
    | some ps =>
      obtain ⟨s2, h1, h2, h3, h4⟩ := ptr_addPipelines_new E s
        { componentID := v.componentID, kind := v.kind, pipelineIDs := v.pipelineIDs } ps
      simp only [Store.new] at h1 h3 h4
      simp only [Store.new, hc, h1, Option.some.injEq, Prod.mk.injEq] at hw
      obtain ⟨rfl, rfl⟩ := hw
      refine ⟨h2, h2 id v h, h3, ?_⟩
      rw [h4]
      simp [InstanceID.WithPipelines, hc]
  · intro cids
    simp only [ptr.WithPipelines, h]
    cases hc : convertToPipelineIDs E cids with
    | none => simp [Store.new]
    | some ps =>
      obtain ⟨s2, h1, -⟩ := ptr_addPipelines_new E s
        { componentID := v.componentID, kind := v.kind, pipelineIDs := v.pipelineIDs } ps
      simp only [Store.new] at h1
      simp [Store.new, h1]
  · intro σ f st
    simp [ptr.AllPipelineIDsWithPipelineIDs, h]
  · intro σ f st
    simp [ptr.AllPipelineIDs, h]
  · simp [ptr.ComponentID, h, InstanceID.ComponentID]
  · simp [ptr.Kind, h, InstanceID.Kind]

/-- C6 on the heap holding the identity of traces/a alone, extended by
traces/b. -/
theorem receiver_unchanged_witness :
    ([NewInstanceIDWithPipelineIDs model.deps model.tracesComponent model.Kind.receiver
        [model.tracesA]] : Store model.ComponentID model.Kind)[0]? =
      some (NewInstanceIDWithPipelineIDs model.deps model.tracesComponent
        model.Kind.receiver [model.tracesA]) ∧
    ∃ s' q, ptr.WithPipelineIDs model.deps
        [NewInstanceIDWithPipelineIDs model.deps model.tracesComponent model.Kind.receiver
          [model.tracesA]] 0 [model.tracesB] = some (s', q) ∧
      (∀ (a : Nat) (w : InstanceID model.ComponentID model.Kind),
        ([NewInstanceIDWithPipelineIDs model.deps model.tracesComponent model.Kind.receiver
          [model.tracesA]] : Store model.ComponentID model.Kind)[a]? = some w →
          s'[a]? = some w) ∧
      s'[0]? = some (NewInstanceIDWithPipelineIDs model.deps model.tracesComponent
        model.Kind.receiver [model.tracesA]) ∧
      ([NewInstanceIDWithPipelineIDs model.deps model.tracesComponent model.Kind.receiver
        [model.tracesA]] : Store model.ComponentID model.Kind)[q]? = none ∧
      s'[q]? = some ((NewInstanceIDWithPipelineIDs model.deps model.tracesComponent
        model.Kind.receiver [model.tracesA]).WithPipelineIDs model.deps [model.tracesB]) :=
  ⟨by decide, (receiver_unchanged model.deps
    [NewInstanceIDWithPipelineIDs model.deps model.tracesComponent model.Kind.receiver
      [model.tracesA]] 0 _ (by decide)).1 [model.tracesB]⟩

/-- C7: early termination.  Both iterators call the visitor on the stored
sequence in order and stop after the first call that answers false: the final
state is that of `visitSeq`, and a visitor answering by a predicate `g` is
called on the first `j` stored IDs, `j` being the position of the first ID on
which `g` is false, or on all `n` of them when there is none. -/
theorem AllPipelineIDs_early_termination (E : Deps CID PID) (id : InstanceID CID K) :
    (∀ (σ : Type) (f : σ → PID → Bool × σ) (st : σ),
      id.AllPipelineIDsWithPipelineIDs E f st = visitSeq f (id.pipelineSeq E) st) ∧
    (∀ g : PID → Bool,
      id.AllPipelineIDsWithPipelineIDs E (recording g) [] =
        (id.pipelineSeq E).take ((id.pipelineSeq E).findIdx (fun p => !g p) + 1) ∧
      (id.AllPipelineIDsWithPipelineIDs E (recording g) []).length =
        if (id.pipelineSeq E).findIdx (fun p => !g p) < (id.pipelineSeq E).length
        then (id.pipelineSeq E).findIdx (fun p => !g p) + 1
        else (id.pipelineSeq E).length) ∧
    (∀ (σ : Type) (f : σ → CID → Bool × σ) (st : σ),
      id.AllPipelineIDs E f st = visitSeq f (id.componentSeq E) st) ∧
    (∀ g : CID → Bool,
      id.AllPipelineIDs E (recording g) [] =
        (id.componentSeq E).take ((id.componentSeq E).findIdx (fun p => !g p) + 1) ∧
      (id.AllPipelineIDs E (recording g) []).length =
        if (id.componentSeq E).findIdx (fun p => !g p) < (id.componentSeq E).length
        then (id.componentSeq E).findIdx (fun p => !g p) + 1
        else (id.componentSeq E).length) := by
  have h1 : ∀ g : PID → Bool, id.AllPipelineIDsWithPipelineIDs E (recording g) [] =
      (id.pipelineSeq E).take ((id.pipelineSeq E).findIdx (fun p => !g p) + 1) := by
    intro g
    rw [All_eq_visitSeq, visitSeq_recording]
    simp
  have h2 : ∀ g : CID → Bool, id.AllPipelineIDs E (recording g) [] =
      (id.componentSeq E).take ((id.componentSeq E).findIdx (fun p => !g p) + 1) := by
    intro g
    rw [AllC_eq_visitSeq, visitSeq_recording]
    simp
  refine ⟨fun σ f st => All_eq_visitSeq E id f st, fun g => ⟨h1 g, ?_⟩,
    fun σ f st => AllC_eq_visitSeq E id f st, fun g => ⟨h2 g, ?_⟩⟩
  · rw [h1 g]; exact take_findIdx_length g _
  · rw [h2 g]; exact take_findIdx_length g _

/-- C8 as stated fails: constructing with the empty component ID returns an
identity, from either constructor. -/
theorem empty_componentID_counterexample :
    NewInstanceIDWithPipelineIDs model.deps model.zeroComponent model.Kind.receiver
        [model.tracesA] =
      { componentID := model.zeroComponent, kind := model.Kind.receiver,
        pipelineIDs := [32, 116, 114, 97, 99, 101, 115, 47, 97, 32] } ∧
    NewInstanceID model.deps model.zeroComponent model.Kind.receiver
        [model.tracesAComponent] =
      some { componentID := model.zeroComponent, kind := model.Kind.receiver,
             pipelineIDs := [32, 116, 114, 97, 99, 101, 115, 47, 97, 32] } := by
  decide

/-- C8, amended: the constructors do not inspect the component ID.  For every
component ID, the empty one included, `NewInstanceIDWithPipelineIDs` returns
the identity with that component ID, the given kind and the canonical encoding
of the pipelines, and `NewInstanceID` returns that identity of the converted
pipelines whenever the conversion returns. -/
theorem constructors_keep_componentID (E : Deps CID PID) (c : CID) (k : K) :
    (∀ ps : List PID, NewInstanceIDWithPipelineIDs E c k ps =
      { componentID := c, kind := k,
        pipelineIDs := strings.Join (canon ([] :: ps.map E.pipelineString)) pipelineDelim ++
          [pipelineDelim] }) ∧
    (∀ ids : List CID, NewInstanceID E c k ids =
      (convertToPipelineIDs E ids).map (NewInstanceIDWithPipelineIDs E c k)) :=
  ⟨fun ps => New_eq E c k ps, fun ids => NewInstanceID_eq E c k ids⟩

/-- C9 as stated fails for `NewInstanceID`: with the non-empty component ID
"traces" and the pipeline given as the component ID "k8s", whose type is no
signal type, the conversion panics and no identity is returned. -/
theorem NewInstanceID_panics_counterexample :
    model.tracesComponent ≠ model.zeroComponent ∧
    NewInstanceID model.deps model.tracesComponent model.Kind.receiver
      [model.k8sComponent] = none := by
  decide

/-- C9, amended: `NewInstanceIDWithPipelineIDs` returns an identity for every
component ID, kind and pipeline list, the one with that component ID, that
kind and the canonical encoding of the pipelines; `NewInstanceID` returns an
identity exactly when the `Must` constructor called for each given component
ID returns (`MustNewIDWithName` on type and name when the name is not empty,
`MustNewID` on the type otherwise), whatever the component ID of the
instance. -/
theorem NewInstanceID_returns_iff (E : Deps CID PID) (c : CID) (k : K) :
    (∀ ps : List PID, ∃ id : InstanceID CID K,
      NewInstanceIDWithPipelineIDs E c k ps = id ∧ id.componentID = c ∧ id.kind = k ∧
      id.pipelineIDs =
        strings.Join (canon ([] :: ps.map E.pipelineString)) pipelineDelim ++
          [pipelineDelim]) ∧
    (∀ ids : List CID, (NewInstanceID E c k ids).isSome = true ↔
      ∀ id ∈ ids, (if E.name id ≠ [] then E.MustNewIDWithName (E.typeString id) (E.name id)
        else E.MustNewID (E.typeString id)).isSome = true) := by
  refine ⟨fun ps => ⟨_, rfl, ?_, ?_, ?_⟩, fun ids => ?_⟩
  · rw [New_eq]
  · rw [New_eq]
  · rw [New_eq]
  · rw [NewInstanceID_eq, Option.isSome_map']
    exact convert_isSome E ids

/-- C10 as stated fails: the zero pipeline ID, whose empty string form is not
parsed back, is accepted at construction, and the iteration then visits
traces/a alone. -/
theorem unparsable_pipeline_counterexample :
    model.deps.pipelineUnmarshalText (model.deps.pipelineString model.zeroPipeline) = none ∧
    NewInstanceIDWithPipelineIDs model.deps model.tracesComponent model.Kind.receiver
        [model.zeroPipeline, model.tracesA] =
      { componentID := model.tracesComponent, kind := model.Kind.receiver,
        pipelineIDs := [32, 116, 114, 97, 99, 101, 115, 47, 97, 32] } ∧
    (NewInstanceIDWithPipelineIDs model.deps model.tracesComponent model.Kind.receiver
        [model.zeroPipeline, model.tracesA]).AllPipelineIDsWithPipelineIDs model.deps
      (recording (fun _ => true)) [] = [model.tracesA] := by
  decide

/-- C10, amended: a pipeline whose string form is not parsed back is not
rejected at construction.  For delimiter-free string forms the identity is
built, its encoding holds that string form as a segment, and the iterator
visits the segments that `UnmarshalText` accepts, which are those of the
identity built without the pipeline. -/
theorem unparsable_pipeline_skipped (E : Deps CID PID) (c : CID) (k : K) (ps : List PID)
    (hfree : ∀ p ∈ ps, pipelineDelim ∉ E.pipelineString p) (p : PID) (hp : p ∈ ps)
    (hbad : E.pipelineUnmarshalText (E.pipelineString p) = none) :
    E.pipelineString p ∈ segments (NewInstanceIDWithPipelineIDs E c k ps).pipelineIDs ∧
    (∀ (σ : Type) (f : σ → PID → Bool × σ) (st : σ),
      (NewInstanceIDWithPipelineIDs E c k ps).AllPipelineIDsWithPipelineIDs E f st =
        visitSeq f ((segments (NewInstanceIDWithPipelineIDs E c k ps).pipelineIDs).filterMap
          E.pipelineUnmarshalText) st) ∧
    (∀ (σ : Type) (f : σ → PID → Bool × σ) (st : σ),
      (NewInstanceIDWithPipelineIDs E c k ps).AllPipelineIDsWithPipelineIDs E f st =
        (NewInstanceIDWithPipelineIDs E c k (ps.filter
          (fun q => decide (E.pipelineString q ≠ E.pipelineString p)))
        ).AllPipelineIDsWithPipelineIDs E f st) := by
  refine ⟨?_, fun σ f st => All_eq_visitSeq E _ f st, fun σ f st => ?_⟩
  · rw [segments_New E c k ps hfree, mem_canon]
    exact List.mem_cons_of_mem _ (List.mem_map_of_mem _ hp)
  · rw [All_eq_visitSeq, All_eq_visitSeq, pipelineSeq_without E c k ps hfree p hbad]

/-- C10, amended, at the zero pipeline ID given together with traces/a. -/
theorem unparsable_pipeline_skipped_witness :
    (∀ p ∈ [model.zeroPipeline, model.tracesA], pipelineDelim ∉ model.deps.pipelineString p) ∧
    model.zeroPipeline ∈ [model.zeroPipeline, model.tracesA] ∧
    model.deps.pipelineUnmarshalText (model.deps.pipelineString model.zeroPipeline) = none ∧
    model.deps.pipelineString model.zeroPipeline ∈
      segments (NewInstanceIDWithPipelineIDs model.deps model.tracesComponent
        model.Kind.receiver [model.zeroPipeline, model.tracesA]).pipelineIDs :=
  ⟨by decide, by decide, by decide,
    (unparsable_pipeline_skipped model.deps model.tracesComponent model.Kind.receiver
      [model.zeroPipeline, model.tracesA] (by decide) model.zeroPipeline (by decide)
      (by decide)).1⟩

/-- C11: the canonical-form invariant.  For an identity built by
`NewInstanceIDWithPipelineIDs` and extended by any number of `WithPipelineIDs`
calls, all string forms being non-empty and free of the delimiter, the stored
string is the delimiter followed by the distinct member strings in strictly
ascending order, each followed by the delimiter; its delimiter-terminated
segments are the empty segment and then those strings, strictly ascending; and
it ends with the delimiter. -/
theorem canonical_form (E : Deps CID PID) (c : CID) (k : K) (ps : List PID)
    (exts : List (List PID))
    (hne : ∀ p ∈ ps ++ exts.flatten, E.pipelineString p ≠ [])
    (hfree : ∀ p ∈ ps ++ exts.flatten, pipelineDelim ∉ E.pipelineString p) :
    ∃ ss : List GoString,
      ss.Pairwise (fun a b => strLess a b = true) ∧
      (∀ s, s ∈ ss ↔ s ∈ (ps ++ exts.flatten).map E.pipelineString) ∧
      (extend E (NewInstanceIDWithPipelineIDs E c k ps) exts).pipelineIDs =
        pipelineDelim :: encodeSegments ss ∧
      segments (extend E (NewInstanceIDWithPipelineIDs E c k ps) exts).pipelineIDs =
        [] :: ss ∧
      ([] :: ss).Pairwise (fun a b => strLess a b = true) ∧
      (extend E (NewInstanceIDWithPipelineIDs E c k ps) exts).pipelineIDs.getLast? =
        some pipelineDelim := by
  rw [extend_New E c k exts ps hfree]
  exact canonical_form_New E c k _ hne hfree

/-- C11 at the identity of traces/b extended by traces/a and then by traces/c
and traces/a. -/
theorem canonical_form_witness :
    (∀ p ∈ [model.tracesB] ++ [[model.tracesA], [model.tracesC, model.tracesA]].flatten,
      model.deps.pipelineString p ≠ []) ∧
    (∀ p ∈ [model.tracesB] ++ [[model.tracesA], [model.tracesC, model.tracesA]].flatten,
      pipelineDelim ∉ model.deps.pipelineString p) ∧
    ∃ ss : List GoString,
      ss.Pairwise (fun a b => strLess a b = true) ∧
      (∀ s, s ∈ ss ↔ s ∈ ([model.tracesB] ++
        [[model.tracesA], [model.tracesC, model.tracesA]].flatten).map
          model.deps.pipelineString) ∧
      (extend model.deps (NewInstanceIDWithPipelineIDs model.deps model.tracesComponent
          model.Kind.receiver [model.tracesB])
        [[model.tracesA], [model.tracesC, model.tracesA]]).pipelineIDs =
        pipelineDelim :: encodeSegments ss ∧
      segments (extend model.deps (NewInstanceIDWithPipelineIDs model.deps
          model.tracesComponent model.Kind.receiver [model.tracesB])
        [[model.tracesA], [model.tracesC, model.tracesA]]).pipelineIDs = [] :: ss ∧
      ([] :: ss).Pairwise (fun a b => strLess a b = true) ∧
      (extend model.deps (NewInstanceIDWithPipelineIDs model.deps model.tracesComponent
          model.Kind.receiver [model.tracesB])
        [[model.tracesA], [model.tracesC, model.tracesA]]).pipelineIDs.getLast? =
        some pipelineDelim :=
  ⟨by decide, by decide,
    canonical_form model.deps model.tracesComponent model.Kind.receiver [model.tracesB]
      [[model.tracesA], [model.tracesC, model.tracesA]] (by decide) (by decide)⟩

/-- C13 as stated fails: the identity of "traces/b a", whose name holds the
delimiter, changes when it is extended by its own member, and extending the
empty identity twice by "traces/b a" differs from extending it once. -/
theorem WithPipelineIDs_absorb_counterexample :
    model.tracesBspaceA ∈ [model.tracesBspaceA] ∧
    (NewInstanceIDWithPipelineIDs model.deps model.tracesComponent model.Kind.receiver
        [model.tracesBspaceA]).WithPipelineIDs model.deps [model.tracesBspaceA] ≠
      NewInstanceIDWithPipelineIDs model.deps model.tracesComponent model.Kind.receiver
        [model.tracesBspaceA] ∧
    ((NewInstanceIDWithPipelineIDs model.deps model.tracesComponent model.Kind.receiver
        []).WithPipelineIDs model.deps [model.tracesBspaceA]).WithPipelineIDs model.deps
        [model.tracesBspaceA] ≠
      (NewInstanceIDWithPipelineIDs model.deps model.tracesComponent model.Kind.receiver
        []).WithPipelineIDs model.deps [model.tracesBspaceA] := by
  decide

/-- C13, amended: for an identity built by `NewInstanceIDWithPipelineIDs` and
extended by any number of `WithPipelineIDs` calls, no string form holding the
delimiter, extending it by pipelines whose string forms are already among its
members (the empty list included) gives the identity itself; and extending it
twice by a list of delimiter-free pipelines is the same as extending it
once. -/
theorem WithPipelineIDs_absorb (E : Deps CID PID) (c : CID) (k : K) (ps : List PID)
    (exts : List (List PID))
    (hfree : ∀ p ∈ ps ++ exts.flatten, pipelineDelim ∉ E.pipelineString p) :
    (∀ extra : List PID,
      (∀ p ∈ extra, E.pipelineString p ∈ (ps ++ exts.flatten).map E.pipelineString) →
      (extend E (NewInstanceIDWithPipelineIDs E c k ps) exts).WithPipelineIDs E extra =
        extend E (NewInstanceIDWithPipelineIDs E c k ps) exts) ∧
    (∀ es : List PID, (∀ p ∈ es, pipelineDelim ∉ E.pipelineString p) →
      ((extend E (NewInstanceIDWithPipelineIDs E c k ps) exts).WithPipelineIDs E
          es).WithPipelineIDs E es =
        (extend E (NewInstanceIDWithPipelineIDs E c k ps) exts).WithPipelineIDs E es) := by
  rw [extend_New E c k exts ps hfree]
  constructor
  · intro extra hmem
    rw [With_New E c k _ extra hfree]
    exact New_append_absorb E c k _ extra hmem
  · intro es hes
    have hfree' : ∀ p ∈ (ps ++ exts.flatten) ++ es, pipelineDelim ∉ E.pipelineString p := by
      intro p hp
      rcases List.mem_append.1 hp with h | h
      · exact hfree p h
      · exact hes p h
    rw [With_New E c k _ es hfree, With_New E c k _ es hfree']
    apply New_append_absorb
    intro p hp
    exact List.mem_map_of_mem _ (List.mem_append_right _ hp)

/-- C13, amended, at the identity of traces/a extended by traces/b. -/
theorem WithPipelineIDs_absorb_witness :
    (∀ p ∈ [model.tracesA] ++ [[model.tracesB]].flatten,
      pipelineDelim ∉ model.deps.pipelineString p) ∧
    (∀ p ∈ [model.tracesB, model.tracesA], model.deps.pipelineString p ∈
      ([model.tracesA] ++ [[model.tracesB]].flatten).map model.deps.pipelineString) ∧
    (extend model.deps (NewInstanceIDWithPipelineIDs model.deps model.tracesComponent
        model.Kind.receiver [model.tracesA]) [[model.tracesB]]).WithPipelineIDs model.deps
        [model.tracesB, model.tracesA] =
      extend model.deps (NewInstanceIDWithPipelineIDs model.deps model.tracesComponent
        model.Kind.receiver [model.tracesA]) [[model.tracesB]] :=
  ⟨by decide, by decide,
    (WithPipelineIDs_absorb model.deps model.tracesComponent model.Kind.receiver
      [model.tracesA] [[model.tracesB]] (by decide)).1 [model.tracesB, model.tracesA]
      (by decide)⟩

/-- C14 as stated fails: on the empty identity, extending by "traces/b a",
whose name holds the delimiter, and then by nothing differs both from
extending in the other order and from extending by the concatenation. -/
theorem WithPipelineIDs_order_counterexample :
    ((NewInstanceIDWithPipelineIDs model.deps model.tracesComponent model.Kind.receiver
        []).WithPipelineIDs model.deps [model.tracesBspaceA]).WithPipelineIDs model.deps [] ≠
      ((NewInstanceIDWithPipelineIDs model.deps model.tracesComponent model.Kind.receiver
        []).WithPipelineIDs model.deps []).WithPipelineIDs model.deps [model.tracesBspaceA] ∧
    ((NewInstanceIDWithPipelineIDs model.deps model.tracesComponent model.Kind.receiver
        []).WithPipelineIDs model.deps [model.tracesBspaceA]).WithPipelineIDs model.deps [] ≠
      (NewInstanceIDWithPipelineIDs model.deps model.tracesComponent model.Kind.receiver
        []).WithPipelineIDs model.deps ([model.tracesBspaceA] ++ []) := by
  decide

/-- C14, amended: when no string form of the pipelines of the identity and of
the lists `a` and `b` holds the delimiter, extending by `a` then `b`,
extending by `b` then `a`, and extending by `a ++ b` give the same identity. -/
theorem WithPipelineIDs_order (E : Deps CID PID) (c : CID) (k : K) (ps a b : List PID)
    (hps : ∀ p ∈ ps, pipelineDelim ∉ E.pipelineString p)
    (ha : ∀ p ∈ a, pipelineDelim ∉ E.pipelineString p)
    (hb : ∀ p ∈ b, pipelineDelim ∉ E.pipelineString p) :
    ((NewInstanceIDWithPipelineIDs E c k ps).WithPipelineIDs E a).WithPipelineIDs E b =
      ((NewInstanceIDWithPipelineIDs E c k ps).WithPipelineIDs E b).WithPipelineIDs E a ∧
    ((NewInstanceIDWithPipelineIDs E c k ps).WithPipelineIDs E a).WithPipelineIDs E b =
      (NewInstanceIDWithPipelineIDs E c k ps).WithPipelineIDs E (a ++ b) ∧
    ((NewInstanceIDWithPipelineIDs E c k ps).WithPipelineIDs E b).WithPipelineIDs E a =
      (NewInstanceIDWithPipelineIDs E c k ps).WithPipelineIDs E (a ++ b) := by
  have hpa : ∀ p ∈ ps ++ a, pipelineDelim ∉ E.pipelineString p := by
    intro p hp
    rcases List.mem_append.1 hp with h | h
    · exact hps p h
    · exact ha p h
  have hpb : ∀ p ∈ ps ++ b, pipelineDelim ∉ E.pipelineString p := by
    intro p hp
    rcases List.mem_append.1 hp with h | h
    · exact hps p h
    · exact hb p h
  have h1 : ((NewInstanceIDWithPipelineIDs E c k ps).WithPipelineIDs E a).WithPipelineIDs E b =
      NewInstanceIDWithPipelineIDs E c k (ps ++ a ++ b) := by
    rw [With_New E c k ps a hps, With_New E c k _ b hpa]
  have h2 : ((NewInstanceIDWithPipelineIDs E c k ps).WithPipelineIDs E b).WithPipelineIDs E a =
      NewInstanceIDWithPipelineIDs E c k (ps ++ a ++ b) := by
    rw [With_New E c k ps b hps, With_New E c k _ a hpb]
    exact (New_append_comm E c k ps a b).symm
  have h3 : (NewInstanceIDWithPipelineIDs E c k ps).WithPipelineIDs E (a ++ b) =
      NewInstanceIDWithPipelineIDs E c k (ps ++ a ++ b) := by
    rw [With_New E c k ps (a ++ b) hps, List.append_assoc]
  exact ⟨h1.trans h2.symm, h1.trans h3.symm, h2.trans h3.symm⟩

/-- C14, amended, at the identity of traces/a with the lists traces/c and
traces/b, traces/a. -/
theorem WithPipelineIDs_order_witness :
    (∀ p ∈ [model.tracesA], pipelineDelim ∉ model.deps.pipelineString p) ∧
    (∀ p ∈ [model.tracesC], pipelineDelim ∉ model.deps.pipelineString p) ∧
    (∀ p ∈ [model.tracesB, model.tracesA], pipelineDelim ∉ model.deps.pipelineString p) ∧
    ((NewInstanceIDWithPipelineIDs model.deps model.tracesComponent model.Kind.receiver
        [model.tracesA]).WithPipelineIDs model.deps [model.tracesC]).WithPipelineIDs
        model.deps [model.tracesB, model.tracesA] =
      ((NewInstanceIDWithPipelineIDs model.deps model.tracesComponent model.Kind.receiver
        [model.tracesA]).WithPipelineIDs model.deps
        [model.tracesB, model.tracesA]).WithPipelineIDs model.deps [model.tracesC] :=
  ⟨by decide, by decide, by decide,
    (WithPipelineIDs_order model.deps model.tracesComponent model.Kind.receiver
      [model.tracesA] [model.tracesC] [model.tracesB, model.tracesA]
      (by decide) (by decide) (by decide)).1⟩

/-- C12 as stated fails: the component ID "traces/a+b" has a signal type as
its type, and the pipeline ID "traces/a+b" has the same type string, name and
string form; yet `pipeline.MustNewIDWithName` panics on the name, so
`NewInstanceID` and `WithPipelines` return no identity where
`NewInstanceIDWithPipelineIDs` and `WithPipelineIDs` return one. -/
theorem deprecated_API_equivalent_counterexample :
    model.validSignal (model.deps.typeString model.tracesAplusBComponent) = true ∧
    model.PipelineID.signal model.tracesAplusB =
      model.deps.typeString model.tracesAplusBComponent ∧
    model.PipelineID.name model.tracesAplusB = model.deps.name model.tracesAplusBComponent ∧
    model.deps.pipelineString model.tracesAplusB =
      model.idString model.tracesAplusBComponent.typeVal
        model.tracesAplusBComponent.nameVal ∧
    NewInstanceID model.deps model.tracesComponent model.Kind.receiver
        [model.tracesAplusBComponent] = none ∧
    NewInstanceID model.deps model.tracesComponent model.Kind.receiver
        [model.tracesAplusBComponent] ≠
      some (NewInstanceIDWithPipelineIDs model.deps model.tracesComponent
        model.Kind.receiver [model.tracesAplusB]) ∧
    (NewInstanceIDWithPipelineIDs model.deps model.tracesComponent model.Kind.receiver
        []).WithPipelines model.deps [model.tracesAplusBComponent] ≠
      some ((NewInstanceIDWithPipelineIDs model.deps model.tracesComponent
        model.Kind.receiver []).WithPipelineIDs model.deps [model.tracesAplusB]) := by
  decide

/-- C12, amended: the deprecated component-ID operations agree with the
pipeline-ID operations on the component IDs for which the `Must` constructor
that `convertToPipelineIDs` calls returns.  The missing declarations enter as
parameters: `sig` and `nm` read the type string and the name of a pipeline ID,
the `Must` constructors keep the type and the name they are given, and both
string forms are `fmt` of type and name.  Then, for component IDs on which the
constructors return, and `ps` the pipeline IDs with the same type strings and
names, `NewInstanceID` returns the identity of `NewInstanceIDWithPipelineIDs`
on `ps`, `WithPipelines` returns that of `WithPipelineIDs` on `ps`, and the
string forms agree element by element. -/
theorem deprecated_API_equivalent (E : Deps CID PID) (sig nm : PID → GoString)
    (fmt : GoString → GoString → GoString) (cstr : CID → GoString)
    (c : CID) (k : K) (ids : List CID) (ps : List PID)
    (hvalid : ∀ id ∈ ids, Converts E id)
    (hc : ConstructorsKeep E sig nm)
    (hpstr : ∀ p, E.pipelineString p = fmt (sig p) (nm p))
    (hcstr : ∀ id, cstr id = fmt (E.typeString id) (E.name id))
    (hps : List.Forall₂ (fun id p => sig p = E.typeString id ∧ nm p = E.name id) ids ps) :
    NewInstanceID E c k ids = some (NewInstanceIDWithPipelineIDs E c k ps) ∧
    (∀ id : InstanceID CID K, id.WithPipelines E ids = some (id.WithPipelineIDs E ps)) ∧
    List.Forall₂ (fun id p => E.pipelineString p = cstr id) ids ps := by
  obtain ⟨ps0, hconv, hall⟩ := convert_spec E ids hvalid
  have hstr : ∀ p q, sig p = sig q → nm p = nm q → E.pipelineString p = E.pipelineString q := by
    intro p q h1 h2
    rw [hpstr p, hpstr q, h1, h2]
  have hmap := forall2_strings E sig nm hstr hc ids ps0 ps hall hps
  refine ⟨?_, ?_, ?_⟩
  · rw [NewInstanceID_eq, hconv]
    simp only [Option.map_some', NewInstanceIDWithPipelineIDs]
    rw [addPipelines_congr E _ ps0 ps hmap]
  · intro id
    rw [WithPipelines_eq, hconv]
    simp only [Option.map_some', InstanceID.WithPipelineIDs]
    rw [addPipelines_congr E _ ps0 ps hmap]
  · refine List.Forall₂.imp ?_ hps
    intro id p h
    rw [hpstr p, hcstr id, h.1, h.2]

/-- C17 as stated fails: the component ID "traces/a+b" has a signal type as
its type, yet `pipeline.MustNewIDWithName` panics on its name and
`convertToPipelineIDs` returns no list. -/
theorem convertToPipelineIDs_preserves_counterexample :
    model.validSignal (model.deps.typeString model.tracesAplusBComponent) = true ∧
    model.deps.name model.tracesAplusBComponent ≠ [] ∧
    convertToPipelineIDs model.deps [model.tracesAplusBComponent] = none := by
  decide

/-- C17, amended: `convertToPipelineIDs` preserves length, order and identity
text on the component IDs for which the `Must` constructor it calls returns.
For component IDs on which the `Must` constructors return, the result has the
length of the input; its i-th element is what `MustNewID` returns on the type
of the i-th component ID when that one's name is empty, and what
`MustNewIDWithName` returns on its type and name otherwise, so it has the same
type string and name when the constructors keep what they are given; and the
result does not depend on what `MustNewIDWithName` does on an empty name. -/
theorem convertToPipelineIDs_preserves (E : Deps CID PID) (sig nm : PID → GoString)
    (ids : List CID) (hvalid : ∀ id ∈ ids, Converts E id) (hc : ConstructorsKeep E sig nm) :
    (∃ ps, convertToPipelineIDs E ids = some ps ∧ ps.length = ids.length ∧
      ∀ (i : Nat) (id : CID), ids[i]? = some id → ∃ p, ps[i]? = some p ∧
        (E.name id = [] → E.MustNewID (E.typeString id) = some p) ∧
        (E.name id ≠ [] → E.MustNewIDWithName (E.typeString id) (E.name id) = some p) ∧
        sig p = E.typeString id ∧ nm p = E.name id) ∧
    (∀ E' : Deps CID PID, E'.name = E.name → E'.typeString = E.typeString →
      E'.MustNewID = E.MustNewID →
      (∀ t n, n ≠ [] → E'.MustNewIDWithName t n = E.MustNewIDWithName t n) →
      convertToPipelineIDs E' ids = convertToPipelineIDs E ids) := by
  obtain ⟨ps, hconv, hall⟩ := convert_spec E ids hvalid
  refine ⟨⟨ps, hconv, hall.length_eq.symm, ?_⟩, ?_⟩
  · intro i id hi
    obtain ⟨p, hp, h1, h2⟩ := forall2_getElem _ ids ps hall i id hi
    obtain ⟨q, hq, h3⟩ := forall2_getElem _ ids ps (convert_keeps E sig nm hc ids ps hall) i id hi
    rw [hp] at hq
    cases hq
    exact ⟨p, hp, h1, h2, h3.1, h3.2⟩
  · intro E' hn ht h1 h2
    exact convert_indep E E' hn ht h1 h2 ids

/-- C12, amended, at the component IDs traces/a and traces, against the pipeline IDs
traces/a and traces. -/
theorem deprecated_API_equivalent_witness :
    (∀ id ∈ [model.tracesAComponent, model.tracesComponent], Converts model.deps id) ∧
    ConstructorsKeep model.deps model.PipelineID.signal model.PipelineID.name ∧
    List.Forall₂ (fun id p => model.PipelineID.signal p = model.deps.typeString id ∧
        model.PipelineID.name p = model.deps.name id)
      [model.tracesAComponent, model.tracesComponent] [model.tracesA, model.tracesPlain] ∧
    (NewInstanceID model.deps model.tracesComponent model.Kind.receiver
        [model.tracesAComponent, model.tracesComponent] =
      some (NewInstanceIDWithPipelineIDs model.deps model.tracesComponent model.Kind.receiver
        [model.tracesA, model.tracesPlain]) ∧
    (∀ id : InstanceID model.ComponentID model.Kind,
      id.WithPipelines model.deps [model.tracesAComponent, model.tracesComponent] =
        some (id.WithPipelineIDs model.deps [model.tracesA, model.tracesPlain])) ∧
    List.Forall₂ (fun id p => model.deps.pipelineString p =
        model.idString id.typeVal id.nameVal)
      [model.tracesAComponent, model.tracesComponent] [model.tracesA, model.tracesPlain]) :=
  ⟨by decide, model_constructors_keep,
    List.Forall₂.cons ⟨rfl, rfl⟩ (List.Forall₂.cons ⟨rfl, rfl⟩ List.Forall₂.nil),
    deprecated_API_equivalent model.deps model.PipelineID.signal model.PipelineID.name
      model.idString (fun id => model.idString id.typeVal id.nameVal)
      model.tracesComponent model.Kind.receiver
      [model.tracesAComponent, model.tracesComponent] [model.tracesA, model.tracesPlain]
      (by decide) model_constructors_keep (fun _ => rfl) (fun _ => rfl)
      (List.Forall₂.cons ⟨rfl, rfl⟩ (List.Forall₂.cons ⟨rfl, rfl⟩ List.Forall₂.nil))⟩

/-- C17, amended, at the component IDs traces/a and traces. -/
theorem convertToPipelineIDs_preserves_witness :
    (∀ id ∈ [model.tracesAComponent, model.tracesComponent], Converts model.deps id) ∧
    ConstructorsKeep model.deps model.PipelineID.signal model.PipelineID.name ∧
    ∃ ps, convertToPipelineIDs model.deps [model.tracesAComponent, model.tracesComponent] =
        some ps ∧
      ps.length = [model.tracesAComponent, model.tracesComponent].length ∧
      ∀ (i : Nat) (id : model.ComponentID),
        [model.tracesAComponent, model.tracesComponent][i]? = some id →
        ∃ p, ps[i]? = some p ∧
          (model.deps.name id = [] → model.deps.MustNewID (model.deps.typeString id) = some p) ∧
          (model.deps.name id ≠ [] →
            model.deps.MustNewIDWithName (model.deps.typeString id) (model.deps.name id) =
              some p) ∧
          model.PipelineID.signal p = model.deps.typeString id ∧
          model.PipelineID.name p = model.deps.name id :=
  ⟨by decide, model_constructors_keep,
    (convertToPipelineIDs_preserves model.deps model.PipelineID.signal model.PipelineID.name
      [model.tracesAComponent, model.tracesComponent] (by decide) model_constructors_keep).1⟩

end componentstatus

/-! ## The command of the service -/

namespace service

theorem newArgs_append {X : Externals} (l₁ l₂ : List (Call X)) :
    newArgs (l₁ ++ l₂) = newArgs l₁ ++ newArgs l₂ := by
  induction l₁ with
  | nil => rfl
  | cons a rest ih => cases a <;> simp [newArgs, ih]

theorem defaultArgs_append {X : Externals} (l₁ l₂ : List (Call X)) :
    defaultArgs (l₁ ++ l₂) = defaultArgs l₁ ++ defaultArgs l₂ := by
  induction l₁ with
  | nil => rfl
  | cons a rest ih => cases a <;> simp [defaultArgs, ih]

theorem runArgs_append {X : Externals} (l₁ l₂ : List (Call X)) :
    runArgs (l₁ ++ l₂) = runArgs l₁ ++ runArgs l₂ := by
  induction l₁ with
  | nil => rfl
  | cons a rest ih => cases a <;> simp [runArgs, ih]

theorem RunE_set (X : Externals) (set : Settings X) (ctx : X.Context) (w : X.World) :
    (RunE X set ctx w).set =
      match set.ConfigMapProvider with
      | none =>
        { set with ConfigMapProvider := some (X.NewDefault
            (X.getConfigFlag (X.Apply (X.GetFlags w) w))
            (X.getSetFlag (X.Apply (X.GetFlags w) w))) }
      | some _ => set := by
  unfold RunE
  simp only
  split <;> rename_i h
  · rfl
  · split <;> rfl

theorem RunE_calls (X : Externals) (set : Settings X) (ctx : X.Context) (w : X.World) :
    newArgs (RunE X set ctx w).calls = [(RunE X set ctx w).set] ∧
    defaultArgs (RunE X set ctx w).calls =
      match set.ConfigMapProvider with
      | none => [(X.getConfigFlag (X.Apply (X.GetFlags w) w),
          X.getSetFlag (X.Apply (X.GetFlags w) w))]
      | some _ => [] := by
  obtain ⟨b, p, r⟩ := set
  cases p with
  | none =>
    simp only [RunE]
    split <;> simp [newArgs, defaultArgs]
  | some v =>
    simp only [RunE]
    split <;> simp [newArgs, defaultArgs]

theorem RunE_error (X : Externals) (set : Settings X) (ctx : X.Context) (w : X.World)
    (e : X.Error) (w2 : X.World)
    (h : X.New (RunE X set ctx w).set (X.Apply (X.GetFlags w) w) = (Except.error e, w2)) :
    (RunE X set ctx w).err = some e ∧ (RunE X set ctx w).world = w2 ∧
      runArgs (RunE X set ctx w).calls = [] := by
  rw [RunE_set] at h
  unfold RunE
  simp only
  rw [h]
  cases hp : set.ConfigMapProvider <;> simp [runArgs_append, runArgs]

theorem RunE_ok (X : Externals) (set : Settings X) (ctx : X.Context) (w : X.World)
    (col : X.Collector) (w2 : X.World)
    (h : X.New (RunE X set ctx w).set (X.Apply (X.GetFlags w) w) = (Except.ok col, w2)) :
    (RunE X set ctx w).err = (X.Run col ctx w2).1 ∧
      (RunE X set ctx w).world = (X.Run col ctx w2).2 ∧
      runArgs (RunE X set ctx w).calls = [(col, ctx)] := by
  rw [RunE_set] at h
  unfold RunE
  simp only
  rw [h]
  cases hp : set.ConfigMapProvider <;> simp [runArgs_append, runArgs]

/-- C15: the run function of the command built by `NewCommand` calls `New`
once, on the settings it leaves in its captured variable; these have the build
information and the remaining fields of the given settings; when the given
provider is not nil they are the given settings, provider included, and
`configmapprovider.NewDefault` is not called; when it is nil the provider is
the one `NewDefault` returns on the config flag and the set flag, and
`NewDefault` is called once, on these. -/
theorem NewCommand_provider (X : Externals) (set : Settings X) (ctx : X.Context)
    (w : X.World) :
    newArgs ((NewCommand X set).run ctx w).calls = [((NewCommand X set).run ctx w).set] ∧
    ((NewCommand X set).run ctx w).set.BuildInfo = set.BuildInfo ∧
    ((NewCommand X set).run ctx w).set.rest = set.rest ∧
    (∀ p, set.ConfigMapProvider = some p →
      ((NewCommand X set).run ctx w).set = set ∧
      ((NewCommand X set).run ctx w).set.ConfigMapProvider = some p ∧
      defaultArgs ((NewCommand X set).run ctx w).calls = []) ∧
    (set.ConfigMapProvider = none →
      ((NewCommand X set).run ctx w).set.ConfigMapProvider =
        some (X.NewDefault (X.getConfigFlag (X.Apply (X.GetFlags w) w))
          (X.getSetFlag (X.Apply (X.GetFlags w) w))) ∧
      defaultArgs ((NewCommand X set).run ctx w).calls =
        [(X.getConfigFlag (X.Apply (X.GetFlags w) w),
          X.getSetFlag (X.Apply (X.GetFlags w) w))]) := by
  have hset := RunE_set X set ctx w
  have hcalls := RunE_calls X set ctx w
  simp only [Command.run, NewCommand]
  refine ⟨hcalls.1, ?_, ?_, ?_, ?_⟩
  · rw [hset]; split <;> rfl
  · rw [hset]; split <;> rfl
  · intro p hp
    rw [hp] at hset
    rw [hcalls.2, hset, hp]
    exact ⟨rfl, rfl, rfl⟩
  · intro hp
    rw [hcalls.2, hset, hp]
    exact ⟨rfl, rfl⟩

/-- C15 on settings with the provider 4 and on settings with a nil
provider. -/
theorem NewCommand_provider_witness :
    model.withProvider.ConfigMapProvider = some (4 : Nat) ∧
    ((NewCommand model.externals model.withProvider).run (0 : Nat) (0 : Nat)).set =
      model.withProvider ∧
    model.withoutProvider.ConfigMapProvider = none ∧
    ((NewCommand model.externals model.withoutProvider).run (0 : Nat)
        (0 : Nat)).set.ConfigMapProvider = some (7 : Nat) :=
  ⟨rfl,
    ((NewCommand_provider model.externals model.withProvider (0 : Nat) (0 : Nat)).2.2.2.1
      (4 : Nat) rfl).1,
    rfl,
    ((NewCommand_provider model.externals model.withoutProvider (0 : Nat)
      (0 : Nat)).2.2.2.2 rfl).1⟩

/-- C16: the run function of the command built by `NewCommand` calls `New`
once, on the settings it leaves in its captured variable, after the feature
gates are applied.  If that call returns an error, the run function returns
that error, leaves the state of the process as `New` left it, and calls `Run`
on no collector; if it returns a collector, the run function calls `Run` on
that collector and the context of the command, once, and returns what `Run`
returns. -/
theorem NewCommand_result (X : Externals) (set : Settings X) (ctx : X.Context)
    (w : X.World) :
    newArgs ((NewCommand X set).run ctx w).calls = [((NewCommand X set).run ctx w).set] ∧
    (∀ (e : X.Error) (w2 : X.World),
      X.New ((NewCommand X set).run ctx w).set (X.Apply (X.GetFlags w) w) =
        (Except.error e, w2) →
      ((NewCommand X set).run ctx w).err = some e ∧
      ((NewCommand X set).run ctx w).world = w2 ∧
      runArgs ((NewCommand X set).run ctx w).calls = []) ∧
    (∀ (col : X.Collector) (w2 : X.World),
      X.New ((NewCommand X set).run ctx w).set (X.Apply (X.GetFlags w) w) =
        (Except.ok col, w2) →
      ((NewCommand X set).run ctx w).err = (X.Run col ctx w2).1 ∧
      ((NewCommand X set).run ctx w).world = (X.Run col ctx w2).2 ∧
      runArgs ((NewCommand X set).run ctx w).calls = [(col, ctx)]) :=
  ⟨(RunE_calls X set ctx w).1, fun e w2 h => RunE_error X set ctx w e w2 h,
    fun col w2 h => RunE_ok X set ctx w col w2 h⟩

/-- C16 on settings on which `New` fails with error 7 and on settings on which
it returns the collector 4, whose `Run` returns nil. -/
theorem NewCommand_result_witness :
    (((NewCommand model.externals model.failingProvider).run (0 : Nat) (0 : Nat)).err =
        some (7 : Nat) ∧
      ((NewCommand model.externals model.failingProvider).run (0 : Nat) (0 : Nat)).world =
        (2 : Nat) ∧
      runArgs ((NewCommand model.externals model.failingProvider).run (0 : Nat)
        (0 : Nat)).calls = []) ∧
    (((NewCommand model.externals model.withProvider).run (0 : Nat) (0 : Nat)).err =
        (model.externals.Run (4 : Nat) (0 : Nat) (2 : Nat)).1 ∧
      ((NewCommand model.externals model.withProvider).run (0 : Nat) (0 : Nat)).world =
        (model.externals.Run (4 : Nat) (0 : Nat) (2 : Nat)).2 ∧
      runArgs ((NewCommand model.externals model.withProvider).run (0 : Nat)
        (0 : Nat)).calls = [((4 : Nat), (0 : Nat))]) :=
  ⟨(NewCommand_result model.externals model.failingProvider (0 : Nat) (0 : Nat)).2.1
      (7 : Nat) (2 : Nat) rfl,
    (NewCommand_result model.externals model.withProvider (0 : Nat) (0 : Nat)).2.2
      (4 : Nat) (2 : Nat) rfl⟩

end service
